import Mathlib

/-!
Verification of the sliding-block puzzle solver (Klotski-style boards with
IDDFS and IDA* search).  The definitions below are a shallow embedding of
the Rust sources:

* `Vec2`, `Dir`               — `vec2.rs` / `board.rs (Dir)`
* `Matrix2D`                  — `matrix.rs`
* `Block`, `BoardState`, `Board`, `move_block`, `is_valid_move`,
  `generate_possible_moves`, `generate_final_state`, `try_from`,
  `heuristic`, `is_goal`      — `board.rs`
* `dfs`, `iddfs`, `_idastar`, `idastar` — `search.rs` (sliding-puzzle-search)

Embedding conventions:
* `i8`/`i32` integers are modelled as `Int`; the only place where machine
  wrap-around is observable for the claims is the `(id - 1) as usize` cast
  in block lookup, modelled explicitly as reduction mod 2^64 (`usize_cast`).
* Rust `BTreeSet<Vec2>` (the holes) is a sorted duplicate-free collection;
  it is modelled as a sorted `Nodup` list over the derived lexicographic
  order, the exact data a `BTreeSet` holds.  The `HashSet<Move>` move cache
  is observable only through membership, set equality and an unspecified
  iteration order; it is modelled as a sorted `Nodup` list as well, fixing
  one of the iteration orders Rust may produce (block id, then direction).
  `BTreeSet<BoardState>` (the visited set) is only queried for membership,
  so it is a plain list with set-insert/remove.
* `&mut self` methods are modelled by state passing; a method that can
  return `Err` while having already mutated `self` returns the mutated
  state together with the error.  A Rust `panic!`/`assert!` failure and
  running out of recursion fuel are both modelled as `Option.none`
  ("no defined result").
-/

namespace SlidingPuzzle

/-- 2D integer coordinate (source: `vec2.rs`, `Vec2 { x: i8, y: i8 }`). -/
structure Vec2 where
  x : Int
  y : Int
deriving DecidableEq, Repr, Inhabited

/-- Componentwise addition (source: `impl Add for &Vec2`). -/
def Vec2.add (a b : Vec2) : Vec2 := ⟨a.x + b.x, a.y + b.y⟩

/-- Direction on the board (source: `board.rs`, `enum Dir`). -/
inductive Dir
  | up
  | down
  | left
  | right
deriving DecidableEq, Repr, Inhabited

/-- Source: `Dir::to_vec2`. -/
def Dir.to_vec2 : Dir → Vec2
  | .up => ⟨0, -1⟩
  | .down => ⟨0, 1⟩
  | .left => ⟨-1, 0⟩
  | .right => ⟨1, 0⟩

/-- Source: `Dir::inverse`. -/
def Dir.inverse : Dir → Dir
  | .up => .down
  | .down => .up
  | .left => .right
  | .right => .left

/-- The list `[0, 1, …, n-1]` as integers (a Rust `0..n` loop range). -/
def intRange (n : Int) : List Int := (List.range n.toNat).map (fun k : Nat => (k : Int))

/-- `z as usize` for a signed integer `z` (two's-complement reduction mod 2^64). -/
def usize_cast (z : Int) : Nat := (z % (2 : Int) ^ 64).toNat

/-- `p` lies in the rectangle `[0, sz.x) × [0, sz.y)` (source: `Matrix2D::is_inside`). -/
def Vec2.inside (sz p : Vec2) : Prop :=
  0 ≤ p.x ∧ p.x < sz.x ∧ 0 ≤ p.y ∧ p.y < sz.y

instance (sz p : Vec2) : Decidable (Vec2.inside sz p) := by
  unfold Vec2.inside; infer_instance

/-- Generic 2D array (source: `matrix.rs`, `Matrix2D<T> { store: Vec<T>, size: Vec2 }`). -/
structure Matrix2D (α : Type) where
  store : List α
  size : Vec2
deriving DecidableEq, Repr, Inhabited

namespace Matrix2D

/-- Row-major index of an inside position (`pos.y as usize * size.x as usize + pos.x as usize`). -/
def idx (m : Matrix2D α) (p : Vec2) : Nat :=
  p.y.toNat * m.size.x.toNat + p.x.toNat

/-- Source: `Matrix2D::get` (bounds-checked read, `None` out of range). -/
def get (m : Matrix2D α) (p : Vec2) : Option α :=
  if Vec2.inside m.size p then m.store.get? (m.idx p) else none

/-- A single bounds-checked write (`*self.get_mut(pos).unwrap() = value`; no-op
outside the grid, which `try_fill` never reaches thanks to its bounds pre-check). -/
def set_cell (m : Matrix2D α) (p : Vec2) (v : α) : Matrix2D α :=
  if Vec2.inside m.size p then ⟨m.store.set (m.idx p) v, m.size⟩ else m

/-- The cells of the rectangle anchored at `anchor` of extent `sz`, in the
`for dy { for dx { … } }` order used by `Matrix2D::try_fill`. -/
def rect_cells (anchor sz : Vec2) : List Vec2 :=
  (intRange sz.y).flatMap (fun dy => (intRange sz.x).map (fun dx => anchor.add ⟨dx, dy⟩))

/-- Membership in the rectangle anchored at `a` of extent `s`. -/
def in_rect (a s p : Vec2) : Prop :=
  a.x ≤ p.x ∧ p.x < a.x + s.x ∧ a.y ≤ p.y ∧ p.y < a.y + s.y

instance (a s p : Vec2) : Decidable (in_rect a s p) := by
  unfold in_rect; infer_instance

/-- Source: `Matrix2D::try_fill` — fails iff some target cell is out of range,
otherwise overwrites every cell of the rectangle (no emptiness check). -/
def try_fill (m : Matrix2D α) (anchor sz : Vec2) (v : α) : Option (Matrix2D α) :=
  if (rect_cells anchor sz).all (fun p => (m.get p).isSome)
  then some ((rect_cells anchor sz).foldl (fun acc p => acc.set_cell p v) m)
  else none

/-- Source: `Matrix2D::fill`. -/
def fill (sz : Vec2) (v : α) : Matrix2D α :=
  ⟨List.replicate (sz.x.toNat * sz.y.toNat) v, sz⟩

/-- All grid positions in row-major order (the `for i { for j { … } }` scans). -/
def cell_list (sz : Vec2) : List Vec2 :=
  (intRange sz.y).flatMap (fun i => (intRange sz.x).map (fun j => ⟨j, i⟩))

/-- Well-formedness of the representation: nonnegative dimensions and a store
of exactly `size.x * size.y` elements (always true of `Vec<T>`-backed grids). -/
def wf (m : Matrix2D α) : Prop :=
  0 ≤ m.size.x ∧ 0 ≤ m.size.y ∧ m.store.length = m.size.x.toNat * m.size.y.toNat

instance (m : Matrix2D α) [DecidableEq α] : Decidable (wf m) := by
  unfold wf; infer_instance

end Matrix2D

/-- Block on the board (source: `board.rs`, `Block { id, pos, size }`). -/
structure Block where
  id : Int
  pos : Vec2
  size : Vec2
deriving DecidableEq, Repr, Inhabited

/-- Source: `Block::from_positions` (positions are in row-major order). -/
def Block.from_positions (id : Int) (positions : List Vec2) : Except String Block :=
  match positions with
  | [p] => .ok ⟨id, p, ⟨1, 1⟩⟩
  | [p, q] =>
    if q = p.add ⟨1, 0⟩ then .ok ⟨id, p, ⟨2, 1⟩⟩
    else if q = p.add ⟨0, 1⟩ then .ok ⟨id, p, ⟨1, 2⟩⟩
    else .error "Positions cannot form a block"
  | [p, a, b, c] =>
    if a = p.add ⟨1, 0⟩ then
      if b = p.add ⟨0, 1⟩ then
        if c = p.add ⟨1, 1⟩ then .ok ⟨id, p, ⟨2, 2⟩⟩
        else .error "Positions cannot form a block"
      else .error "Positions cannot form a block"
    else .error "Positions cannot form a block"
  | _ => .error "Invalid position size, allowed values are 1, 2, 4"

/-- A move of a board (source: `type Move = (i8, Dir)`). -/
abbrev Move := Int × Dir

/-- The derived lexicographic `Ord` of `Vec2 { x, y }` (used by `BTreeSet<Vec2>`
and `Vec::sort`). -/
def vecLE (a b : Vec2) : Prop := a.x < b.x ∨ (a.x = b.x ∧ a.y ≤ b.y)

instance : DecidableRel vecLE := fun _ _ => by unfold vecLE; infer_instance

instance : IsTotal Vec2 vecLE := by
  constructor; intro a b; unfold vecLE; omega

instance : IsTrans Vec2 vecLE := by
  constructor
  intro a b c h h'
  unfold vecLE at h h' ⊢
  omega

instance : IsAntisymm Vec2 vecLE := by
  constructor
  intro a b h h'
  unfold vecLE at h h'
  have hx : a.x = b.x := by omega
  have hy : a.y = b.y := by omega
  cases a; cases b
  simp_all

/-- Key used to order moves: block id first, then direction declaration order. -/
def dir_index : Dir → Int
  | .up => 0
  | .down => 1
  | .left => 2
  | .right => 3

def move_key (m : Move) : Int := 4 * m.1 + dir_index m.2

/-- Canonical order in which the searches iterate `possible_moves()` (the Rust
`HashSet` iteration order is unspecified; we fix one). -/
def moveLE (a b : Move) : Prop := move_key a ≤ move_key b

instance : DecidableRel moveLE := fun _ _ => inferInstanceAs (Decidable (_ ≤ _))

instance : IsTotal Move moveLE := ⟨fun a b => Int.le_total (move_key a) (move_key b)⟩

instance : IsTrans Move moveLE := ⟨fun _ _ _ h h' => Int.le_trans h h'⟩

instance : IsAntisymm Move moveLE := by
  constructor
  intro a b h h'
  have hk : move_key a = move_key b := Int.le_antisymm h h'
  obtain ⟨i, d⟩ := a
  obtain ⟨j, e⟩ := b
  simp only [move_key] at hk
  cases d <;> cases e <;> simp_all [dir_index] <;> omega

/-- Insertion into a sorted duplicate-free list (a `BTreeSet`/`HashSet` insert). -/
def set_insert (le : α → α → Prop) [DecidableRel le] [DecidableEq α]
    (a : α) (l : List α) : List α :=
  if a ∈ l then l else l.orderedInsert le a

/-- Board state: empty-cell set plus blocks sorted by id (source: `BoardState`).
The holes are the contents of a `BTreeSet<Vec2>`: sorted and duplicate-free. -/
structure BoardState where
  holes : List Vec2
  blocks : List Block
deriving DecidableEq, Inhabited

/-- Source: `BoardState::new` (the holes vector becomes a `BTreeSet`). -/
def BoardState.new (holes : List Vec2) (blocks : List Block) : BoardState :=
  ⟨holes.foldl (fun acc p => set_insert vecLE p acc) [], blocks⟩

/-- Board of the sliding puzzle (source: `Board`). -/
structure Board where
  grid : Matrix2D Int
  state : BoardState
  final_state : BoardState
  _possible_moves : List Move
deriving DecidableEq, Inhabited

/-- The loop order `[Up, Down, Left, Right]` of `dir_and_vecs`. -/
def dirList : List Dir := [.up, .down, .left, .right]

/-- The candidate moves a single hole contributes: for every cardinal
neighbour occupied by a block `id`, the move `(id, direction.inverse())`. -/
def hole_moves (id_grid : Matrix2D Int) (hole : Vec2) : List Move :=
  dirList.filterMap (fun d =>
    match id_grid.get (hole.add d.to_vec2) with
    | some id => if id ≠ 0 then some (id, d.inverse) else none
    | none => none)

/-- Source: `Board::generate_possible_moves` — for every hole and every
cardinal neighbour occupied by a block, record `(id, direction.inverse())`
in the move set. -/
def generate_possible_moves (holes : List Vec2) (id_grid : Matrix2D Int) : List Move :=
  holes.foldl
    (fun acc hole => (hole_moves id_grid hole).foldl (fun acc' m => set_insert moveLE m acc') acc)
    []

/-- Distinct move errors of `board.rs` (the source reports them as strings:
"id {} not found", "Invalid move, {} has occupied by {}", "Move out of range",
and `try_fill`'s "Fill area out of range"). -/
inductive MoveErr
  | notFound (id : Int)
  | occupied (pos : Vec2) (occ : Int)
  | outOfRange
  | fillRange
deriving DecidableEq, Repr

/-- Result of `is_valid_move`: success, a reported error, or a failed
`assert_eq!(id, block.id)` (a Rust panic). -/
inductive Vres
  | ok
  | fail (e : MoveErr)
  | aborted
deriving DecidableEq, Repr

/-- The cells of a block in the `for dx { for dy { … } }` order used by
`move_block` and `is_valid_move` (note: transposed w.r.t. `try_fill`). -/
def block_cells (b : Block) : List Vec2 :=
  (intRange b.size.x).flatMap (fun dx => (intRange b.size.y).map (fun dy => b.pos.add ⟨dx, dy⟩))

/-- The per-cell destination scan of `is_valid_move`, returning the first error. -/
def valid_scan (g : Matrix2D Int) (id : Int) (v : Vec2) : List Vec2 → Vres
  | [] => .ok
  | c :: rest =>
    match g.get (c.add v) with
    | some nid => if nid ≠ 0 ∧ nid ≠ id then .fail (.occupied (c.add v) nid) else valid_scan g id v rest
    | none => .fail .outOfRange

/-- Source: `Board::is_valid_move`. -/
def is_valid_move (b : Board) (id : Int) (d : Dir) : Vres :=
  match b.state.blocks.get? (usize_cast (id - 1)) with
  | none => .fail (.notFound id)
  | some block =>
    if id = block.id then valid_scan b.grid id d.to_vec2 (block_cells block)
    else .aborted

/-- Result of `move_block` on a `&mut Board`: `ok` with the new state, `fail`
with the reported error and the (possibly partially mutated) state, or a panic. -/
inductive MoveOutcome
  | ok (b : Board)
  | fail (e : MoveErr) (b : Board)
  | aborted
deriving DecidableEq

/-- Source: `Board::move_block`, with the source's exact order of effects:
validate; clear the old footprint; add its cells to the holes; translate the
block; write the new footprint; remove its cells from the holes; recompute
the move cache. -/
def move_block (b : Board) (id : Int) (d : Dir) : MoveOutcome :=
  match is_valid_move b id d with
  | .aborted => .aborted
  | .fail e => .fail e b
  | .ok =>
    match b.state.blocks.get? (usize_cast (id - 1)) with
    | none => .fail (.notFound id) b
    | some block =>
      if id = block.id then
        match b.grid.try_fill block.pos block.size 0 with
        | none => .fail .fillRange b
        | some grid1 =>
          match grid1.try_fill (block.pos.add d.to_vec2) block.size block.id with
          | none =>
            .fail .fillRange
              { grid := grid1,
                state := ⟨(block_cells block).foldl (fun h p => set_insert vecLE p h) b.state.holes,
                          b.state.blocks.set (usize_cast (id - 1))
                            ⟨block.id, block.pos.add d.to_vec2, block.size⟩⟩,
                final_state := b.final_state, _possible_moves := b._possible_moves }
          | some grid2 =>
            .ok { grid := grid2,
                  state := ⟨(block_cells ⟨block.id, block.pos.add d.to_vec2, block.size⟩).foldl
                              (fun h p => h.erase p)
                              ((block_cells block).foldl (fun h p => set_insert vecLE p h)
                                b.state.holes),
                            b.state.blocks.set (usize_cast (id - 1))
                              ⟨block.id, block.pos.add d.to_vec2, block.size⟩⟩,
                  final_state := b.final_state,
                  _possible_moves := generate_possible_moves
                    ((block_cells ⟨block.id, block.pos.add d.to_vec2, block.size⟩).foldl
                       (fun h p => h.erase p)
                       ((block_cells block).foldl (fun h p => set_insert vecLE p h)
                         b.state.holes))
                    grid2 }
      else .aborted

/-- Source: `Board::is_goal` — state equality against the memoized goal. -/
def Board.is_goal (b : Board) : Bool := decide (b.state = b.final_state)

/-- Source: `Board::possible_moves` (a copy of the cached set, iterated in
the fixed canonical order). -/
def Board.possible_moves (b : Board) : List Move := b._possible_moves

instance {ε α : Type} [DecidableEq ε] [DecidableEq α] : DecidableEq (Except ε α) :=
  fun x y =>
    match x, y with
    | .ok a, .ok b => decidable_of_iff (a = b) (by simp)
    | .ok _, .error _ => isFalse (by simp)
    | .error _, .ok _ => isFalse (by simp)
    | .error e, .error f => decidable_of_iff (e = f) (by simp)

/-- Source: `Board::heuristic` — sum over zipped current/goal blocks of the
L1 distance between anchors. -/
def Board.heuristic (b : Board) : Int :=
  ((b.state.blocks.zip b.final_state.blocks).map
    (fun ct => |ct.1.pos.x - ct.2.pos.x| + |ct.1.pos.y - ct.2.pos.y|)).sum

/-- Accumulator of the `generate_final_state` scan. -/
structure GfsState where
  grid : Matrix2D Int
  next : Nat
  result_blocks : List Block
  holes : List Vec2

/-- One scan step of `generate_final_state` at cell `pos` (`none` = panic:
a failed `unwrap` or the `assert_eq!(block.id, next_block_id + 1)`). -/
def gfs_step (blocks : List Block) (st : GfsState) (pos : Vec2) : Option GfsState :=
  match st.grid.get pos with
  | none => none
  | some v =>
    if v = 0 then
      match blocks.get? st.next with
      | some block =>
        if block.id = (st.next : Int) + 1 then
          match st.grid.try_fill pos block.size block.id with
          | some grid' =>
            some ⟨grid', st.next + 1,
                  st.result_blocks ++ [⟨block.id, pos, block.size⟩], st.holes⟩
          | none => some ⟨st.grid, st.next, st.result_blocks, st.holes ++ [pos]⟩
        else none
      | none => some ⟨st.grid, st.next, st.result_blocks, st.holes ++ [pos]⟩
    else some st

/-- Fold the scan over a cell list, propagating panics. -/
def gfs_scan (blocks : List Block) : List Vec2 → Option GfsState → Option GfsState
  | _, none => none
  | [], some st => some st
  | pos :: rest, some st => gfs_scan blocks rest (gfs_step blocks st pos)

/-- Source: `Board::generate_final_state` — greedy row-major repacking of the
blocks into a canonical goal layout.  The outer `Option` is a panic. -/
def generate_final_state (size : Vec2) (blocks : List Block) :
    Option (Except String BoardState) :=
  match gfs_scan blocks (Matrix2D.cell_list size) (some ⟨Matrix2D.fill size 0, 0, [], []⟩) with
  | none => none
  | some st =>
    if (st.result_blocks.get? st.next).isSome then
      some (.error "Cannot fit those blocks into board")
    else
      some (.ok (BoardState.new st.holes st.result_blocks))

/-- Source: `Board::parse_blocks` — blocks must carry exactly the ids `1..=n`. -/
def parse_blocks (size : Vec2) (grid : Matrix2D Int) : Except String (List Block) :=
  let ids := ((Matrix2D.cell_list size).filterMap (fun p => grid.get p)).filter (fun v => v ≠ 0)
  let block_cnt := ids.dedup.length
  (List.range block_cnt).foldl
    (fun acc i =>
      match acc with
      | .error e => .error e
      | .ok done =>
        let id : Int := (i : Int) + 1
        let positions := (Matrix2D.cell_list size).filter (fun p => grid.get p = some id)
        if positions = [] then .error "Missing block id"
        else
          match Block.from_positions id positions with
          | .ok blk => .ok (done ++ [blk])
          | .error e => .error e)
    (.ok [])

/-- Source: `impl TryFrom<Matrix2D<i8>> for Board` — partition cells into
holes and per-id position lists, build the blocks, the goal state and the
move cache.  The outer `Option` is a panic (an `expect` on a malformed grid
or the assert inside `generate_final_state`). -/
def try_from (grid : Matrix2D Int) : Option (Except String Board) :=
  let size := grid.size
  if (Matrix2D.cell_list size).all (fun p => (grid.get p).isSome) then
    let holes := (Matrix2D.cell_list size).filter (fun p => grid.get p = some 0)
    match parse_blocks size grid with
    | .error e => some (.error e)
    | .ok blocks =>
      let state := BoardState.new holes blocks
      match generate_final_state size blocks with
      | none => none
      | some (.error e) => some (.error e)
      | some (.ok final_state) =>
        some (.ok { grid := grid, state := state, final_state := final_state,
                    _possible_moves := generate_possible_moves state.holes grid })
  else none

/-- Convenience: extract the board of a grid whose construction succeeds. -/
def board_of (grid : Matrix2D Int) : Board :=
  match try_from grid with
  | some (.ok b) => b
  | _ => default

/-- Apply a move list in chronological order; `none` as soon as one move is
rejected or panics (spec §6: a returned move list is applicable in order). -/
def apply_moves : Board → List Move → Option Board
  | b, [] => some b
  | b, (id, d) :: rest =>
    match move_block b id d with
    | .ok b' => apply_moves b' rest
    | _ => none

/-- `b` cannot reach a goal state by any sequence of accepted moves. -/
def unreachable_goal (b : Board) : Prop :=
  ∀ ms b', apply_moves b ms = some b' → b'.is_goal = false

/-- Set-semantics insertion into the visited collection (`BTreeSet::insert`). -/
def vis_insert (s : BoardState) (v : List BoardState) : List BoardState :=
  if s ∈ v then v else s :: v

/-- Search result of one bounded search: `Except` mirrors the Rust
`Result<Vec<Move>, i32>`, paired with the (mutated) visited set. -/
abbrev SearchRes := Except Int (List Move) × List BoardState

/-- The candidate loop of `dfs` (sliding-puzzle-search/src/search.rs), with
the recursive call abstracted as `recur`.  `remain` is `remain_limit`. -/
def dfs_loop (recur : Board → Int → List BoardState → Option SearchRes)
    (limit : Int) :
    Board → List BoardState → List Move → Int → Option SearchRes
  | b, visited, [], remain => some (.error remain, visited.erase b.state)
  | b, visited, (id, d) :: rest, remain =>
    match move_block b id d with
    | .aborted => none
    | .fail _ b1 => dfs_loop recur limit b1 visited rest remain
    | .ok b' =>
      match recur b' (limit - 1) visited with
      | none => none
      | some (.ok moves, visited') => some (.ok (moves ++ [(id, d)]), visited')
      | some (.error r, visited') =>
        match move_block b' id d.inverse with
        | .ok b'' => dfs_loop recur limit b'' visited' rest (min remain r)
        | _ => none

/-- Source: `dfs` — depth-bounded DFS with a path-local visited set.
Returns the collected moves in reverse order, or the minimum remaining
budget over the explored branches.  Fuel only guards the recursion depth,
which the `limit ≤ 0` check already bounds by `limit + 1`. -/
def dfs : Nat → Board → Int → List BoardState → Option SearchRes
  | 0, _, _, _ => none
  | fuel + 1, b, limit, visited =>
    if b.is_goal then some (.ok [], visited)
    else if limit ≤ 0 then some (.error 0, visited)
    else if b.state ∈ visited then some (.error limit, visited)
    else dfs_loop (dfs fuel) limit b (vis_insert b.state visited) b.possible_moves limit

/-- The outer iterative-deepening loop of `iddfs`, with round fuel.  Result
`some none` is Rust's `None` ("no solution"), `some (some ms)` is `Some(ms)`,
and `none` means the modelled run was cut off (fuel) or panicked. -/
def iddfs_rounds : Nat → Board → Int → Option (Option (List Move))
  | 0, _, _ => none
  | fuel + 1, b, limit =>
    match dfs (limit.toNat + 1) b limit [] with
    | none => none
    | some (.ok moves, _) => some (some moves.reverse)
    | some (.error remain, _) =>
      if remain > 0 then some none else iddfs_rounds fuel b (limit + 1)

/-- Source: `iddfs` — start at depth limit 1 and raise it by 1 per round. -/
def iddfs (fuel : Nat) (b : Board) : Option (Option (List Move)) :=
  iddfs_rounds fuel b 1

/-- The candidate loop of `_idastar`, with the recursive call abstracted.
`flim` is the mutable local `f_limit`, raised to `max f_limit f_value`
after each candidate; a recursive `Err` value is discarded (only the
mutated visited set survives). -/
def idastar_loop (recur : Board → Int → Int → List BoardState → Option SearchRes)
    (g : Int) :
    Board → Int → List BoardState → List Move → Option SearchRes
  | b, flim, visited, [] => some (.error flim, visited.erase b.state)
  | b, flim, visited, (id, d) :: rest =>
    match move_block b id d with
    | .aborted => none
    | .fail _ b1 => idastar_loop recur g b1 flim visited rest
    | .ok b' =>
      let f := g + b'.heuristic
      if f < flim then
        match recur b' (g + 1) flim visited with
        | none => none
        | some (.ok moves, visited') => some (.ok (moves ++ [(id, d)]), visited')
        | some (.error _, visited') =>
          match move_block b' id d.inverse with
          | .ok b'' => idastar_loop recur g b'' (max flim f) visited' rest
          | _ => none
      else
        match move_block b' id d.inverse with
        | .ok b'' => idastar_loop recur g b'' (max flim f) visited rest
        | _ => none

/-- Source: `_idastar` — cost-bounded search.  On failure it returns the
final value of the mutable `f_limit` (see `idastar_loop`). -/
def _idastar : Nat → Board → Int → Int → List BoardState → Option SearchRes
  | 0, _, _, _, _ => none
  | fuel + 1, b, g, flim, visited =>
    if b.is_goal then some (.ok [], visited)
    else if b.state ∈ visited then some (.error flim, visited)
    else idastar_loop (_idastar fuel) g b flim (vis_insert b.state visited) b.possible_moves

/-- The outer loop of `idastar`: adopt the returned limit if it grew,
otherwise report no solution. -/
def idastar_rounds : Nat → Board → Int → Option (Option (List Move))
  | 0, _, _ => none
  | fuel + 1, b, flim =>
    match _idastar (flim.toNat + 2) b 0 flim [] with
    | none => none
    | some (.ok moves, _) => some (some moves.reverse)
    | some (.error nl, _) =>
      if nl ≤ flim then some none else idastar_rounds fuel b nl

/-- Source: `idastar` — the first `f_limit` is the initial heuristic. -/
def idastar (fuel : Nat) (b : Board) : Option (Option (List Move)) :=
  idastar_rounds fuel b b.heuristic

/-- The occupancy invariant of a `Board` (spec §3): the grid store is
well-formed; the holes are exactly the 0-cells, held in canonical
(sorted, duplicate-free) `BTreeSet` form; block `i` carries id `i+1`;
every cell of a block's rectangle holds its id; every non-zero cell belongs
to the rectangle of the block with that id; and the legal-move cache equals
a fresh recomputation.  All quantifiers are bounded, so the invariant is
decidable on concrete boards. -/
structure Board.Inv (b : Board) : Prop where
  grid_wf : b.grid.wf
  blocks_bound : b.state.blocks.length < 2 ^ 64
  holes_sorted : b.state.holes.Sorted vecLE
  holes_nodup : b.state.holes.Nodup
  holes_zero : ∀ p ∈ b.state.holes, b.grid.get p = some 0
  zero_holes : ∀ p ∈ Matrix2D.cell_list b.grid.size,
    b.grid.get p = some 0 → p ∈ b.state.holes
  ids : ∀ pr ∈ b.state.blocks.enum, pr.2.id = (pr.1 : Int) + 1
  cover : ∀ blk ∈ b.state.blocks, ∀ p ∈ block_cells blk, b.grid.get p = some blk.id
  owner : ∀ p ∈ Matrix2D.cell_list b.grid.size,
    b.grid.get p = some 0 ∨
      ∃ blk ∈ b.state.blocks, some blk.id = b.grid.get p ∧
        Matrix2D.in_rect blk.pos blk.size p
  cache : b._possible_moves = generate_possible_moves b.state.holes b.grid

/-- The invariant of the goal-repacking scan: dimensions are fixed, every
placed rectangle is inside the grid, placements happen in id order with the
input block's id and size, and exactly `next` blocks are placed. -/
def GfsInv (size0 : Vec2) (blocks : List Block) (st : GfsState) : Prop :=
  st.grid.size = size0 ∧
  st.result_blocks.length = st.next ∧
  (∀ blk ∈ st.result_blocks, ∀ p ∈ Matrix2D.rect_cells blk.pos blk.size, Vec2.inside size0 p) ∧
  (∀ i blk, st.result_blocks.get? i = some blk →
    ∃ bl, blocks.get? i = some bl ∧ blk.id = bl.id ∧ blk.size = bl.size)

/-! Concrete boards used to settle individual claims. -/

/-- The 5×4 board of the repository's unit tests (`test_move_block` etc.):
`1 2 2 3 / 1 2 2 3 / 4 0 5 5 / 4 0 7 6 / 9 10 8 6`. -/
def tgrid : Matrix2D Int := ⟨[1,2,2,3, 1,2,2,3, 4,0,5,5, 4,0,7,6, 9,10,8,6], ⟨4,5⟩⟩

def tboard : Board := board_of tgrid

/-- A 2×2 board `2 1 / 0 0`: two unit blocks swapped, solvable in 4 moves
while the heuristic at the root is only 2. -/
def c1grid : Matrix2D Int := ⟨[2,1, 0,0], ⟨2,2⟩⟩

def c1board : Board := board_of c1grid

/-- A 4-move solution of `c1board`. -/
def c1sol : List Move := [(1, .down), (1, .left), (2, .right), (1, .up)]

/-- A 1×8 strip `0 0 0 0 0 0 1 0` (block 1 six cells right of its goal). -/
def c2grid : Matrix2D Int := ⟨[0,0,0,0,0,0,1,0], ⟨8,1⟩⟩

def c2board : Board := board_of c2grid

/-- A 4×2 board `1 3 2 4 / 5 5 2 0` whose greedy goal repacking overwrites a
cell of the vertical block 2 with the horizontal block 5. -/
def c4grid : Matrix2D Int := ⟨[1,3,2,4, 5,5,2,0], ⟨4,2⟩⟩

/-- A 3×3 board `6 6 1 / 6 6 2 / 3 4 5` whose 2×2 block 6 cannot be placed by
the greedy row-major goal repacking. -/
def c5grid : Matrix2D Int := ⟨[6,6,1, 6,6,2, 3,4,5], ⟨3,3⟩⟩

/-- A 1×2 board `2 1`: completely packed out of goal order, so no move is
possible and the goal is unreachable. -/
def c6grid : Matrix2D Int := ⟨[2,1], ⟨2,1⟩⟩

def c6board : Board := board_of c6grid

/-! # Theorems -/

/-- `set_cell` never changes the dimensions. -/
theorem Matrix2D.set_cell_size (m : Matrix2D α) (p : Vec2) (v : α) :
    (m.set_cell p v).size = m.size := by
  unfold Matrix2D.set_cell; split <;> rfl

/-- Folded `set_cell` writes never change the dimensions. -/
theorem Matrix2D.foldl_set_cell_size (v : α) :
    ∀ (l : List Vec2) (m : Matrix2D α),
      (l.foldl (fun acc p => acc.set_cell p v) m).size = m.size
  | [], _ => rfl
  | p :: rest, m => by
    rw [List.foldl_cons, Matrix2D.foldl_set_cell_size v rest, Matrix2D.set_cell_size]

/-- `try_fill` never changes the dimensions. -/
theorem Matrix2D.try_fill_size {m m' : Matrix2D α} {a s : Vec2} {v : α}
    (h : m.try_fill a s v = some m') : m'.size = m.size := by
  unfold Matrix2D.try_fill at h
  split at h
  · obtain rfl : _ = m' := Option.some_inj.mp h
    exact Matrix2D.foldl_set_cell_size v _ m
  · exact absurd h (by simp)

/-- A successful bounds-checked read is inside the grid. -/
theorem Matrix2D.get_isSome_inside {m : Matrix2D α} {p : Vec2}
    (h : (m.get p).isSome) : Vec2.inside m.size p := by
  unfold Matrix2D.get at h
  by_cases hin : Vec2.inside m.size p
  · exact hin
  · rw [if_neg hin] at h; exact absurd h (by simp)

/-- A successful `try_fill` had its whole rectangle inside the grid. -/
theorem Matrix2D.try_fill_inside {m m' : Matrix2D α} {a s : Vec2} {v : α}
    (h : m.try_fill a s v = some m') :
    ∀ p ∈ Matrix2D.rect_cells a s, Vec2.inside m.size p := by
  intro p hp
  unfold Matrix2D.try_fill at h
  split at h
  · next hall => exact Matrix2D.get_isSome_inside (by simpa using List.all_eq_true.mp hall p hp)
  · exact absurd h (by simp)

theorem mem_intRange {z n : Int} : z ∈ intRange n ↔ 0 ≤ z ∧ z < n := by
  unfold intRange
  simp only [List.mem_map, List.mem_range]
  constructor
  · rintro ⟨k, hk, rfl⟩
    omega
  · rintro ⟨h0, hn⟩
    exact ⟨z.toNat, by omega, by omega⟩

theorem Matrix2D.mem_rect_cells {a s p : Vec2} :
    p ∈ Matrix2D.rect_cells a s ↔ Matrix2D.in_rect a s p := by
  unfold Matrix2D.rect_cells Matrix2D.in_rect
  simp only [List.mem_flatMap, List.mem_map, mem_intRange]
  constructor
  · rintro ⟨dy, hdy, dx, hdx, rfl⟩
    unfold Vec2.add
    dsimp only
    omega
  · rintro ⟨h1, h2, h3, h4⟩
    refine ⟨p.y - a.y, by omega, p.x - a.x, by omega, ?_⟩
    unfold Vec2.add
    dsimp only
    cases p
    simp only [Vec2.mk.injEq]
    constructor <;> dsimp only <;> omega

theorem mem_block_cells {blk : Block} {p : Vec2} :
    p ∈ block_cells blk ↔ Matrix2D.in_rect blk.pos blk.size p := by
  unfold block_cells Matrix2D.in_rect
  simp only [List.mem_flatMap, List.mem_map, mem_intRange]
  constructor
  · rintro ⟨dx, hdx, dy, hdy, rfl⟩
    unfold Vec2.add
    dsimp only
    omega
  · rintro ⟨h1, h2, h3, h4⟩
    refine ⟨p.x - blk.pos.x, by omega, p.y - blk.pos.y, by omega, ?_⟩
    unfold Vec2.add
    dsimp only
    cases p
    simp only [Vec2.mk.injEq]
    constructor <;> dsimp only <;> omega

/-- Translating a rectangle translates its member test. -/
theorem in_rect_add {a s p : Vec2} (v : Vec2) :
    Matrix2D.in_rect a s p ↔ Matrix2D.in_rect (a.add v) s (p.add v) := by
  unfold Matrix2D.in_rect Vec2.add
  dsimp only
  omega

/-- `set_cell` preserves the store length. -/
theorem Matrix2D.set_cell_store_length (m : Matrix2D α) (p : Vec2) (v : α) :
    (m.set_cell p v).store.length = m.store.length := by
  unfold Matrix2D.set_cell; split <;> simp

theorem get?_isSome_iff {l : List α} {n : Nat} : (l.get? n).isSome ↔ n < l.length := by
  rw [Option.isSome_iff_ne_none, Ne, List.get?_eq_none]
  omega

/-- `set_cell` preserves which reads succeed. -/
theorem Matrix2D.get_isSome_set_cell (m : Matrix2D α) (q : Vec2) (v : α) (p : Vec2) :
    ((m.set_cell q v).get p).isSome ↔ (m.get p).isSome := by
  have hidx : (m.set_cell q v).idx p = m.idx p := by
    unfold Matrix2D.idx; rw [Matrix2D.set_cell_size]
  unfold Matrix2D.get
  rw [Matrix2D.set_cell_size, hidx]
  split
  · rw [get?_isSome_iff, get?_isSome_iff, Matrix2D.set_cell_store_length]
  · simp

/-- Folded `set_cell` writes preserve which reads succeed. -/
theorem Matrix2D.get_isSome_foldl_set_cell (v : α) :
    ∀ (l : List Vec2) (m : Matrix2D α) (p : Vec2),
      (((l.foldl (fun acc q => acc.set_cell q v) m).get p).isSome) ↔ ((m.get p).isSome)
  | [], _, _ => Iff.rfl
  | q :: rest, m, p => by
    rw [List.foldl_cons]
    rw [Matrix2D.get_isSome_foldl_set_cell v rest (m.set_cell q v) p]
    exact Matrix2D.get_isSome_set_cell m q v p

/-- A successful `try_fill` preserves which reads succeed. -/
theorem Matrix2D.get_isSome_try_fill {m m' : Matrix2D α} {a s : Vec2} {v : α}
    (h : m.try_fill a s v = some m') (p : Vec2) :
    ((m'.get p).isSome) ↔ ((m.get p).isSome) := by
  unfold Matrix2D.try_fill at h
  split at h
  · obtain rfl : _ = m' := Option.some_inj.mp h
    exact Matrix2D.get_isSome_foldl_set_cell v _ m p
  · exact absurd h (by simp)

/-- `try_fill` succeeds iff every cell of the rectangle is inside the grid. -/
theorem Matrix2D.try_fill_isSome_iff {m : Matrix2D α} {a s : Vec2} {v : α} :
    (m.try_fill a s v).isSome ↔
      ∀ p ∈ Matrix2D.rect_cells a s, ((m.get p).isSome) := by
  unfold Matrix2D.try_fill
  split
  · next hall => simpa using List.all_eq_true.mp hall
  · next hall =>
    simp only [Option.isSome_none, Bool.false_eq_true, false_iff]
    intro hforall
    exact hall (List.all_eq_true.mpr (by simpa using hforall))

theorem Matrix2D.mem_cell_list {sz p : Vec2} :
    p ∈ Matrix2D.cell_list sz ↔ Vec2.inside sz p := by
  unfold Matrix2D.cell_list Vec2.inside
  simp only [List.mem_flatMap, List.mem_map, mem_intRange]
  constructor
  · rintro ⟨i, hi, j, hj, rfl⟩
    dsimp only
    omega
  · rintro ⟨h1, h2, h3, h4⟩
    exact ⟨p.y, by omega, p.x, by omega, by cases p; rfl⟩

/-- The row-major index of an inside cell is a valid store index. -/
theorem Matrix2D.idx_lt {m : Matrix2D α} (hwf : m.wf) {p : Vec2}
    (hp : Vec2.inside m.size p) : m.idx p < m.store.length := by
  obtain ⟨hx, hy, hlen⟩ := hwf
  obtain ⟨h1, h2, h3, h4⟩ := hp
  unfold Matrix2D.idx
  rw [hlen]
  have hxlt : p.x.toNat < m.size.x.toNat := by omega
  have hylt : p.y.toNat < m.size.y.toNat := by omega
  calc p.y.toNat * m.size.x.toNat + p.x.toNat
      < p.y.toNat * m.size.x.toNat + m.size.x.toNat := by omega
    _ = (p.y.toNat + 1) * m.size.x.toNat := by ring
    _ ≤ m.size.y.toNat * m.size.x.toNat := Nat.mul_le_mul_right _ (by omega)
    _ = m.size.x.toNat * m.size.y.toNat := Nat.mul_comm _ _

/-- Row-major indexing is injective on inside cells. -/
theorem Matrix2D.idx_inj {m : Matrix2D α} {p q : Vec2}
    (hp : Vec2.inside m.size p) (hq : Vec2.inside m.size q)
    (h : m.idx p = m.idx q) : p = q := by
  obtain ⟨hp1, hp2, hp3, hp4⟩ := hp
  obtain ⟨hq1, hq2, hq3, hq4⟩ := hq
  unfold Matrix2D.idx at h
  have hxp : p.x.toNat < m.size.x.toNat := by omega
  have hxq : q.x.toNat < m.size.x.toNat := by omega
  have hmod : p.x.toNat = q.x.toNat := by
    have h1 : (p.y.toNat * m.size.x.toNat + p.x.toNat) % m.size.x.toNat = p.x.toNat := by
      rw [Nat.mul_comm, Nat.mul_add_mod]; exact Nat.mod_eq_of_lt hxp
    have h2 : (q.y.toNat * m.size.x.toNat + q.x.toNat) % m.size.x.toNat = q.x.toNat := by
      rw [Nat.mul_comm, Nat.mul_add_mod]; exact Nat.mod_eq_of_lt hxq
    rw [← h1, ← h2, h]
  have hdiv : p.y.toNat = q.y.toNat := by
    have hx0 : 0 < m.size.x.toNat := by omega
    have h1 : (p.y.toNat * m.size.x.toNat + p.x.toNat) / m.size.x.toNat = p.y.toNat := by
      rw [Nat.mul_comm, Nat.mul_add_div hx0, Nat.div_eq_of_lt hxp]
      omega
    have h2 : (q.y.toNat * m.size.x.toNat + q.x.toNat) / m.size.x.toNat = q.y.toNat := by
      rw [Nat.mul_comm, Nat.mul_add_div hx0, Nat.div_eq_of_lt hxq]
      omega
    rw [← h1, ← h2, h]
  cases p; cases q
  simp only [Vec2.mk.injEq]
  dsimp only at hp1 hp3 hq1 hq3 hmod hdiv
  omega

/-- `set_cell` preserves well-formedness. -/
theorem Matrix2D.set_cell_wf {m : Matrix2D α} (hwf : m.wf) (q : Vec2) (v : α) :
    (m.set_cell q v).wf := by
  obtain ⟨hx, hy, hlen⟩ := hwf
  refine ⟨?_, ?_, ?_⟩ <;> rw [Matrix2D.set_cell_size] <;>
    first
      | exact hx
      | exact hy
      | rw [Matrix2D.set_cell_store_length]; exact hlen

/-- Value-level characterization of a single write. -/
theorem Matrix2D.get_set_cell {m : Matrix2D α} (hwf : m.wf) (q : Vec2) (v : α)
    (p : Vec2) :
    (m.set_cell q v).get p =
      if p = q ∧ Vec2.inside m.size q then some v else m.get p := by
  by_cases hq : Vec2.inside m.size q
  · unfold Matrix2D.set_cell
    rw [if_pos hq]
    unfold Matrix2D.get
    dsimp only
    by_cases hp : Vec2.inside m.size p
    · rw [if_pos hp, if_pos hp]
      by_cases hpq : p = q
      · subst hpq
        rw [if_pos ⟨rfl, hq⟩]
        have hidx : Matrix2D.idx ⟨m.store.set (m.idx p) v, m.size⟩ p = m.idx p := rfl
        rw [hidx]
        rw [List.get?_set_eq]
        rw [List.get?_eq_get (Matrix2D.idx_lt hwf hp)]
        simp
      · rw [if_neg (by tauto)]
        have hidx : Matrix2D.idx ⟨m.store.set (m.idx q) v, m.size⟩ p = m.idx p := rfl
        rw [hidx]
        rw [List.get?_set_ne]
        intro hcontra
        exact hpq (Matrix2D.idx_inj hq hp hcontra).symm
    · rw [if_neg hp, if_neg hp, if_neg ?_]
      rintro ⟨rfl, hq'⟩
      exact hp hq'
  · unfold Matrix2D.set_cell
    rw [if_neg hq, if_neg (by tauto)]

/-- Folded writes preserve well-formedness. -/
theorem Matrix2D.foldl_set_cell_wf (v : α) :
    ∀ (l : List Vec2) (m : Matrix2D α), m.wf →
      (l.foldl (fun acc q => acc.set_cell q v) m).wf
  | [], _, hwf => hwf
  | q :: rest, m, hwf => by
    rw [List.foldl_cons]
    exact Matrix2D.foldl_set_cell_wf v rest _ (Matrix2D.set_cell_wf hwf q v)

/-- Value-level characterization of the folded writes of `try_fill`. -/
theorem Matrix2D.get_foldl_set_cell (v : α) :
    ∀ (l : List Vec2) (m : Matrix2D α), m.wf → ∀ p : Vec2,
      (l.foldl (fun acc q => acc.set_cell q v) m).get p =
        if p ∈ l ∧ Vec2.inside m.size p then some v else m.get p
  | [], m, _, p => by simp
  | q :: rest, m, hwf, p => by
    rw [List.foldl_cons]
    rw [Matrix2D.get_foldl_set_cell v rest _ (Matrix2D.set_cell_wf hwf q v) p]
    rw [Matrix2D.set_cell_size]
    by_cases hrest : p ∈ rest ∧ Vec2.inside m.size p
    · rw [if_pos hrest, if_pos ⟨List.mem_cons_of_mem q hrest.1, hrest.2⟩]
    · rw [if_neg hrest, Matrix2D.get_set_cell hwf q v p]
      by_cases hpq : p = q ∧ Vec2.inside m.size q
      · obtain ⟨rfl, hin⟩ := hpq
        rw [if_pos ⟨rfl, hin⟩, if_pos ⟨List.mem_cons_self p rest, hin⟩]
      · rw [if_neg hpq]
        rw [if_neg ?_]
        rintro ⟨hmem, hin⟩
        rcases List.mem_cons.mp hmem with rfl | hmem'
        · exact hpq ⟨rfl, hin⟩
        · exact hrest ⟨hmem', hin⟩

/-- `try_fill` preserves well-formedness. -/
theorem Matrix2D.try_fill_wf {m m' : Matrix2D α} {a s : Vec2} {v : α}
    (hwf : m.wf) (h : m.try_fill a s v = some m') : m'.wf := by
  unfold Matrix2D.try_fill at h
  split at h
  · obtain rfl : _ = m' := Option.some_inj.mp h
    exact Matrix2D.foldl_set_cell_wf v _ m hwf
  · exact absurd h (by simp)

/-- Value-level characterization of a successful `try_fill`: rectangle cells
hold the written value, all other reads are unchanged. -/
theorem Matrix2D.get_try_fill_val {m m' : Matrix2D α} {a s : Vec2} {v : α}
    (hwf : m.wf) (h : m.try_fill a s v = some m') (p : Vec2) :
    m'.get p = if Matrix2D.in_rect a s p then some v else m.get p := by
  have hins := Matrix2D.try_fill_inside h
  unfold Matrix2D.try_fill at h
  split at h
  · obtain rfl : _ = m' := Option.some_inj.mp h
    rw [Matrix2D.get_foldl_set_cell v _ m hwf p]
    by_cases hr : Matrix2D.in_rect a s p
    · have hmem : p ∈ Matrix2D.rect_cells a s := Matrix2D.mem_rect_cells.mpr hr
      rw [if_pos ⟨hmem, hins p hmem⟩, if_pos hr]
    · rw [if_neg ?_, if_neg hr]
      rintro ⟨hmem, _⟩
      exact hr (Matrix2D.mem_rect_cells.mp hmem)
  · exact absurd h (by simp)

/-- With a well-formed store, every inside cell is readable. -/
theorem Matrix2D.get_isSome_of_inside {m : Matrix2D α} (hwf : m.wf) {p : Vec2}
    (hp : Vec2.inside m.size p) : (m.get p).isSome := by
  unfold Matrix2D.get
  rw [if_pos hp]
  exact get?_isSome_iff.mpr (Matrix2D.idx_lt hwf hp)

theorem mem_set_insert {le : α → α → Prop} [DecidableRel le] [DecidableEq α]
    {a x : α} {l : List α} : x ∈ set_insert le a l ↔ x = a ∨ x ∈ l := by
  unfold set_insert
  split
  · next hmem =>
    constructor
    · exact Or.inr
    · rintro (rfl | hx)
      · exact hmem
      · exact hx
  · rw [(List.perm_orderedInsert le a l).mem_iff]
    simp

theorem sorted_set_insert {le : α → α → Prop} [DecidableRel le] [DecidableEq α]
    [IsTotal α le] [IsTrans α le] {a : α} {l : List α}
    (hs : l.Sorted le) : (set_insert le a l).Sorted le := by
  unfold set_insert
  split
  · exact hs
  · exact hs.orderedInsert a l

theorem nodup_set_insert {le : α → α → Prop} [DecidableRel le] [DecidableEq α]
    {a : α} {l : List α} (hn : l.Nodup) : (set_insert le a l).Nodup := by
  unfold set_insert
  split
  · exact hn
  · next hmem =>
    rw [(List.perm_orderedInsert le a l).nodup_iff]
    exact List.nodup_cons.mpr ⟨hmem, hn⟩

theorem mem_foldl_set_insert {le : α → α → Prop} [DecidableRel le] [DecidableEq α] :
    ∀ {l : List α} {H : List α} {x : α},
      x ∈ l.foldl (fun h p => set_insert le p h) H ↔ x ∈ H ∨ x ∈ l
  | [], H, x => by simp
  | p :: rest, H, x => by
    rw [List.foldl_cons, mem_foldl_set_insert, mem_set_insert]
    simp only [List.mem_cons]
    tauto

theorem sorted_foldl_set_insert {le : α → α → Prop} [DecidableRel le] [DecidableEq α]
    [IsTotal α le] [IsTrans α le] :
    ∀ (l : List α) {H : List α}, H.Sorted le →
      (l.foldl (fun h p => set_insert le p h) H).Sorted le
  | [], _, hs => hs
  | p :: rest, H, hs => by
    rw [List.foldl_cons]
    exact sorted_foldl_set_insert rest (sorted_set_insert hs)

theorem nodup_foldl_set_insert {le : α → α → Prop} [DecidableRel le] [DecidableEq α] :
    ∀ (l : List α) {H : List α}, H.Nodup →
      (l.foldl (fun h p => set_insert le p h) H).Nodup
  | [], _, hn => hn
  | p :: rest, H, hn => by
    rw [List.foldl_cons]
    exact nodup_foldl_set_insert rest (nodup_set_insert hn)

theorem nodup_foldl_erase [DecidableEq α] :
    ∀ (l : List α) {H : List α}, H.Nodup → (l.foldl (fun h p => h.erase p) H).Nodup
  | [], _, hn => hn
  | p :: rest, H, hn => by
    rw [List.foldl_cons]
    exact nodup_foldl_erase rest (hn.erase p)

theorem sorted_foldl_erase {le : α → α → Prop} [DecidableEq α] :
    ∀ (l : List α) {H : List α}, H.Sorted le →
      (l.foldl (fun h p => h.erase p) H).Sorted le
  | [], _, hs => hs
  | p :: rest, H, hs => by
    rw [List.foldl_cons]
    exact sorted_foldl_erase rest (hs.sublist (H.erase_sublist p))

theorem mem_foldl_erase [DecidableEq α] :
    ∀ (l : List α) {H : List α}, H.Nodup → ∀ x : α,
      (x ∈ l.foldl (fun h p => h.erase p) H ↔ x ∈ H ∧ x ∉ l)
  | [], _, _, x => by simp
  | p :: rest, H, hn, x => by
    rw [List.foldl_cons, mem_foldl_erase rest (hn.erase p) x, hn.mem_erase_iff]
    simp only [List.mem_cons]
    tauto

/-- Two canonical (sorted, duplicate-free) lists with equal membership are
equal. -/
theorem sorted_nodup_ext {le : α → α → Prop} [IsAntisymm α le] {l l' : List α}
    (hs : l.Sorted le) (hn : l.Nodup) (hs' : l'.Sorted le) (hn' : l'.Nodup)
    (hmem : ∀ x, x ∈ l ↔ x ∈ l') : l = l' :=
  List.eq_of_perm_of_sorted ((List.perm_ext_iff_of_nodup hn hn').mpr hmem) hs hs'

/-- Two well-formed matrices of the same size with equal reads are equal. -/
theorem Matrix2D.ext_of {m m' : Matrix2D α} (hsz : m.size = m'.size)
    (hwf : m.wf) (hwf' : m'.wf) (hget : ∀ p, m.get p = m'.get p) : m = m' := by
  obtain ⟨hx, hy, hlen⟩ := hwf
  obtain ⟨hx', hy', hlen'⟩ := hwf'
  obtain ⟨store, size⟩ := m
  obtain ⟨store', size'⟩ := m'
  dsimp only at hsz hx hy hlen hx' hy' hlen' hget
  subst hsz
  simp only [Matrix2D.mk.injEq, and_true]
  have hlens : store.length = store'.length := by rw [hlen, hlen']
  apply List.ext_get?
  intro n
  rcases Nat.lt_or_ge n store.length with hlt | hge
  · have hwpos : 0 < size.x.toNat := by
      rcases Nat.eq_zero_or_pos size.x.toNat with h0 | h
      · rw [hlen, h0, Nat.zero_mul] at hlt; omega
      · exact h
    obtain ⟨px, hpx⟩ : ∃ px : Nat, px = n % size.x.toNat := ⟨_, rfl⟩
    obtain ⟨py, hpy⟩ : ∃ py : Nat, py = n / size.x.toNat := ⟨_, rfl⟩
    have hmod : px < size.x.toNat := by rw [hpx]; exact Nat.mod_lt _ hwpos
    have hdiv : py < size.y.toNat := by
      rw [hpy]
      refine Nat.div_lt_of_lt_mul ?_
      rw [← hlen]
      exact hlt
    have hrecomp : py * size.x.toNat + px = n := by
      rw [hpx, hpy, Nat.mul_comm]
      exact Nat.div_add_mod n size.x.toNat
    have hinside : Vec2.inside size ⟨(px : Int), (py : Int)⟩ := by
      unfold Vec2.inside
      dsimp only
      omega
    have hidx : Matrix2D.idx ⟨store, size⟩ ⟨(px : Int), (py : Int)⟩ = n := by
      unfold Matrix2D.idx
      dsimp only
      rw [Int.toNat_natCast, Int.toNat_natCast]
      exact hrecomp
    have h1 := hget ⟨(px : Int), (py : Int)⟩
    unfold Matrix2D.get at h1
    rw [if_pos hinside, if_pos hinside] at h1
    have hidx' : Matrix2D.idx ⟨store', size⟩ ⟨(px : Int), (py : Int)⟩ = n := hidx
    rw [hidx] at h1
    rw [hidx'] at h1
    exact h1
  · rw [List.get?_eq_none.mpr hge, List.get?_eq_none.mpr (by omega)]

/-- A successful `move_block` passed validation first. -/
theorem move_block_ok_valid {b : Board} {id : Int} {d : Dir} {b' : Board}
    (hmove : move_block b id d = .ok b') : is_valid_move b id d = .ok := by
  unfold move_block at hmove
  rcases hv : is_valid_move b id d with _ | e
  · rfl
  · rw [hv] at hmove; exact absurd hmove (by simp)
  · rw [hv] at hmove; exact absurd hmove (by simp)

/-- Unfolding of a successful validation: the block exists under the cast
index, carries the requested id, and every destination cell passed the scan. -/
theorem is_valid_move_ok_elim {b : Board} {id : Int} {d : Dir}
    (h : is_valid_move b id d = .ok) :
    ∃ blk, b.state.blocks.get? (usize_cast (id - 1)) = some blk ∧ id = blk.id ∧
      valid_scan b.grid id d.to_vec2 (block_cells blk) = .ok := by
  unfold is_valid_move at h
  rcases hg : b.state.blocks.get? (usize_cast (id - 1)) with _ | blk
  · rw [hg] at h; exact absurd h (by simp)
  · rw [hg] at h
    dsimp only at h
    by_cases hid : id = blk.id
    · rw [if_pos hid] at h; exact ⟨blk, rfl, hid, h⟩
    · rw [if_neg hid] at h; exact absurd h (by simp)

/-- A passing validation scan means every destination cell is readable and
holds 0 or the moving block's own id. -/
theorem valid_scan_ok_forall {g : Matrix2D Int} {id : Int} {v : Vec2} :
    ∀ {l : List Vec2}, valid_scan g id v l = .ok →
      ∀ c ∈ l, ∃ nid, g.get (c.add v) = some nid ∧ (nid = 0 ∨ nid = id)
  | [], _, c, hc => absurd hc (by simp)
  | c0 :: rest, h, c, hc => by
    unfold valid_scan at h
    rcases hg : g.get (c0.add v) with _ | nid
    · rw [hg] at h; exact absurd h (by simp)
    · rw [hg] at h
      dsimp only at h
      by_cases hocc : nid ≠ 0 ∧ nid ≠ id
      · rw [if_pos hocc] at h; exact absurd h (by simp)
      · rw [if_neg hocc] at h
        rcases List.mem_cons.mp hc with rfl | hmem
        · exact ⟨nid, hg, by tauto⟩
        · exact valid_scan_ok_forall h c hmem

/-- Full unfolding of a successful `move_block`: the two fills succeed and
the result is exactly the translated state with a recomputed move cache. -/
theorem move_block_ok_elim {b : Board} {id : Int} {d : Dir} {b' : Board}
    (h : move_block b id d = .ok b') :
    ∃ block grid1 grid2,
      b.state.blocks.get? (usize_cast (id - 1)) = some block ∧ id = block.id ∧
      valid_scan b.grid id d.to_vec2 (block_cells block) = .ok ∧
      b.grid.try_fill block.pos block.size 0 = some grid1 ∧
      grid1.try_fill (block.pos.add d.to_vec2) block.size block.id = some grid2 ∧
      b' = { grid := grid2,
             state := ⟨(block_cells ⟨block.id, block.pos.add d.to_vec2, block.size⟩).foldl
                         (fun h p => h.erase p)
                         ((block_cells block).foldl (fun h p => set_insert vecLE p h)
                           b.state.holes),
                       b.state.blocks.set (usize_cast (id - 1))
                         ⟨block.id, block.pos.add d.to_vec2, block.size⟩⟩,
             final_state := b.final_state,
             _possible_moves := generate_possible_moves
               ((block_cells ⟨block.id, block.pos.add d.to_vec2, block.size⟩).foldl
                  (fun h p => h.erase p)
                  ((block_cells block).foldl (fun h p => set_insert vecLE p h)
                    b.state.holes))
               grid2 } := by
  have hv := move_block_ok_valid h
  obtain ⟨blk, hg, hid, hscan⟩ := is_valid_move_ok_elim hv
  unfold move_block at h
  rw [hv] at h
  dsimp only at h
  rw [hg] at h
  dsimp only at h
  rw [if_pos hid] at h
  rcases hf1 : b.grid.try_fill blk.pos blk.size 0 with _ | grid1
  · rw [hf1] at h; exact absurd h (by simp)
  · rw [hf1] at h
    dsimp only at h
    rcases hf2 : grid1.try_fill (blk.pos.add d.to_vec2) blk.size blk.id with _ | grid2
    · rw [hf2] at h; exact absurd h (by simp)
    · rw [hf2] at h
      refine ⟨blk, grid1, grid2, hg, hid, hscan, hf1, hf2, ?_⟩
      exact (MoveOutcome.ok.inj h).symm

theorem get?_set_self {l : List α} {i : Nat} {a : α} (hi : i < l.length) :
    (l.set i a).get? i = some a := by
  rw [List.get?_set_eq, List.get?_eq_get hi]
  simp

theorem list_set_own : ∀ (l : List α) (i : Nat) (a : α), l.get? i = some a → l.set i a = l
  | [], _, _, h => by simp at h
  | x :: xs, 0, a, h => by
    obtain rfl : x = a := by simpa using h
    rfl
  | x :: xs, n + 1, a, h => by
    rw [List.set_cons_succ, list_set_own xs n a (by simpa using h)]

theorem mem_set_elim {l : List α} {i : Nat} {a x : α} (hx : x ∈ l.set i a) :
    x = a ∨ ∃ j, j ≠ i ∧ l.get? j = some x := by
  obtain ⟨j, hj⟩ := List.mem_iff_get?.mp hx
  by_cases hji : j = i
  · subst hji
    have hi : j < l.length := by
      have := (List.get?_eq_some.mp hj).1
      rwa [List.length_set] at this
    rw [get?_set_self hi] at hj
    exact Or.inl (Option.some_inj.mp hj).symm
  · right
    refine ⟨j, hji, ?_⟩
    rw [List.get?_set_ne _ _ (by omega)] at hj
    exact hj

/-- Holes are exactly the readable 0-cells. -/
theorem Board.Inv.holes_iff {b : Board} (hinv : b.Inv) (p : Vec2) :
    p ∈ b.state.holes ↔ b.grid.get p = some 0 := by
  constructor
  · exact hinv.holes_zero p
  · intro hp
    refine hinv.zero_holes p ?_ hp
    rw [Matrix2D.mem_cell_list]
    exact Matrix2D.get_isSome_inside (by rw [hp]; rfl)

/-- Block `i` carries id `i + 1`. -/
theorem Board.Inv.block_id {b : Board} (hinv : b.Inv) {i : Nat} {blk : Block}
    (h : b.state.blocks.get? i = some blk) : blk.id = (i : Int) + 1 := by
  refine hinv.ids (i, blk) ?_
  rw [List.mk_mem_enum_iff_getElem?, ← List.get?_eq_getElem?]
  exact h

/-- Ids identify blocks uniquely. -/
theorem Board.Inv.id_unique {b : Board} (hinv : b.Inv) {blk blk' : Block}
    (hm : blk ∈ b.state.blocks) (hm' : blk' ∈ b.state.blocks)
    (hid : blk.id = blk'.id) : blk = blk' := by
  obtain ⟨i, hi⟩ := List.mem_iff_get?.mp hm
  obtain ⟨j, hj⟩ := List.mem_iff_get?.mp hm'
  have h1 := hinv.block_id hi
  have h2 := hinv.block_id hj
  obtain rfl : i = j := by omega
  rw [hi] at hj
  exact Option.some_inj.mp hj

/-- Every non-zero cell is owned by the block with that id. -/
theorem Board.Inv.owner_of_get {b : Board} (hinv : b.Inv) {p : Vec2} {v : Int}
    (hget : b.grid.get p = some v) (hv : v ≠ 0) :
    ∃ blk ∈ b.state.blocks, blk.id = v ∧ Matrix2D.in_rect blk.pos blk.size p := by
  have hp : p ∈ Matrix2D.cell_list b.grid.size := by
    rw [Matrix2D.mem_cell_list]
    exact Matrix2D.get_isSome_inside (by rw [hget]; rfl)
  rcases hinv.owner p hp with h0 | ⟨blk, hm, hid, hr⟩
  · rw [hget] at h0
    exact absurd (Option.some_inj.mp h0) hv
  · rw [hget] at hid
    exact ⟨blk, hm, Option.some_inj.mp hid.symm |>.symm, hr⟩

/-- Every cell of a block's rectangle reads its id. -/
theorem Board.Inv.cover_rect {b : Board} (hinv : b.Inv) {blk : Block}
    (hm : blk ∈ b.state.blocks) {p : Vec2}
    (hp : Matrix2D.in_rect blk.pos blk.size p) : b.grid.get p = some blk.id :=
  hinv.cover blk hm p (mem_block_cells.mpr hp)

/-- A destination-only cell of an accepted move is a hole cell (reads 0). -/
theorem dest_cell_zero {b : Board} (hinv : b.Inv) {block : Block} {v : Vec2} {id : Int}
    (hblkmem : block ∈ b.state.blocks) (hid : id = block.id)
    (hscan : valid_scan b.grid id v (block_cells block) = .ok)
    {p : Vec2} (hp : Matrix2D.in_rect (block.pos.add v) block.size p)
    (hnot : ¬ Matrix2D.in_rect block.pos block.size p) :
    b.grid.get p = some 0 := by
  have hc : Matrix2D.in_rect block.pos block.size ⟨p.x - v.x, p.y - v.y⟩ := by
    unfold Matrix2D.in_rect at hp ⊢
    unfold Vec2.add at hp
    dsimp only at hp ⊢
    omega
  obtain ⟨nid, hget, hor⟩ := valid_scan_ok_forall hscan _ (mem_block_cells.mpr hc)
  have hpeq : (⟨p.x - v.x, p.y - v.y⟩ : Vec2).add v = p := by
    unfold Vec2.add
    cases p
    simp only [Vec2.mk.injEq]
    constructor <;> dsimp only <;> omega
  rw [hpeq] at hget
  rcases hor with rfl | hnid
  · exact hget
  · exfalso
    rw [hnid] at hget
    have hne : id ≠ 0 := by
      obtain ⟨i, hi⟩ := List.mem_iff_get?.mp hblkmem
      have := hinv.block_id hi
      omega
    obtain ⟨blk', hmem', hid', hrect'⟩ := hinv.owner_of_get hget hne
    have heq : blk' = block := hinv.id_unique hmem' hblkmem (by rw [hid', hid])
    subst heq
    exact hnot hrect'

/-- Translating a block translates its cell set. -/
theorem block_cells_shift {block : Block} {v : Vec2} {x : Vec2} :
    x ∈ block_cells ⟨block.id, block.pos.add v, block.size⟩ ↔
      ∃ c ∈ block_cells block, x = c.add v := by
  rw [mem_block_cells]
  constructor
  · intro hx
    refine ⟨⟨x.x - v.x, x.y - v.y⟩, mem_block_cells.mpr ?_, ?_⟩
    · unfold Matrix2D.in_rect at hx ⊢
      unfold Vec2.add at hx
      dsimp only at hx ⊢
      omega
    · unfold Vec2.add
      cases x
      simp only [Vec2.mk.injEq]
      constructor <;> dsimp only <;> omega
  · rintro ⟨c, hc, rfl⟩
    rw [mem_block_cells] at hc
    unfold Matrix2D.in_rect at hc ⊢
    unfold Vec2.add
    dsimp only at hc ⊢
    omega

theorem vec2_add_right_injective (v : Vec2) :
    Function.Injective (fun c : Vec2 => c.add v) := by
  intro a b h
  unfold Vec2.add at h
  cases a
  cases b
  simp only [Vec2.mk.injEq] at h ⊢
  omega

/-- A scan that panicked somewhere never produces a state. -/
theorem gfs_scan_none (blocks : List Block) :
    ∀ cells : List Vec2, gfs_scan blocks cells none = none
  | [] => rfl
  | _ :: _ => rfl

/-- One scan step preserves the invariant. -/
theorem gfs_step_inv {size0 : Vec2} {blocks : List Block} {st st1 : GfsState}
    (hstep : gfs_step blocks st pos = some st1)
    (hinv : GfsInv size0 blocks st) : GfsInv size0 blocks st1 := by
  obtain ⟨hsz, hlen, hin, hcorr⟩ := hinv
  unfold gfs_step at hstep
  rcases hget : st.grid.get pos with _ | v
  · rw [hget] at hstep; exact absurd hstep (by simp)
  · rw [hget] at hstep
    dsimp only at hstep
    by_cases hv : v = 0
    · rw [if_pos hv] at hstep
      rcases hblk : blocks.get? st.next with _ | block
      · rw [hblk] at hstep
        obtain rfl : _ = st1 := Option.some_inj.mp hstep
        exact ⟨hsz, hlen, hin, hcorr⟩
      · rw [hblk] at hstep
        dsimp only at hstep
        by_cases hid : block.id = (st.next : Int) + 1
        · rw [if_pos hid] at hstep
          rcases hfill : st.grid.try_fill pos block.size block.id with _ | grid'
          · rw [hfill] at hstep
            obtain rfl : _ = st1 := Option.some_inj.mp hstep
            exact ⟨hsz, hlen, hin, hcorr⟩
          · rw [hfill] at hstep
            obtain rfl : _ = st1 := Option.some_inj.mp hstep
            refine ⟨by rw [Matrix2D.try_fill_size hfill]; exact hsz, by simpa using hlen, ?_, ?_⟩
            · intro blk hblk' p hp
              rcases List.mem_append.mp hblk' with hold | hnew
              · exact hin blk hold p hp
              · obtain rfl : blk = ⟨block.id, pos, block.size⟩ := by simpa using hnew
                have := Matrix2D.try_fill_inside hfill p hp
                rwa [hsz] at this
            · intro i blk hgi
              rcases lt_trichotomy i st.result_blocks.length with hlt | heq | hgt
              · rw [List.get?_append hlt] at hgi
                exact hcorr i blk hgi
              · subst heq
                rw [List.get?_concat_length] at hgi
                obtain rfl : blk = ⟨block.id, pos, block.size⟩ := (Option.some_inj.mp hgi).symm
                exact ⟨block, by rw [← hlen] at hblk; exact hblk, rfl, rfl⟩
              · rw [List.get?_eq_none.mpr (by simp; omega)] at hgi
                exact absurd hgi (by simp)
        · rw [if_neg hid] at hstep
          exact absurd hstep (by simp)
    · rw [if_neg hv] at hstep
      obtain rfl : st = st1 := Option.some_inj.mp hstep
      exact ⟨hsz, hlen, hin, hcorr⟩

/-- The whole scan preserves the invariant. -/
theorem gfs_scan_inv {size0 : Vec2} {blocks : List Block} :
    ∀ (cells : List Vec2) (st st' : GfsState),
      gfs_scan blocks cells (some st) = some st' →
      GfsInv size0 blocks st → GfsInv size0 blocks st'
  | [], st, st', h, hinv => by
    obtain rfl : st = st' := Option.some_inj.mp h
    exact hinv
  | pos :: rest, st, st', h, hinv => by
    unfold gfs_scan at h
    rcases hstep : gfs_step blocks st pos with _ | st1
    · rw [hstep] at h
      rw [gfs_scan_none] at h
      exact absurd h (by simp)
    · rw [hstep] at h
      exact gfs_scan_inv rest st1 st' h (gfs_step_inv hstep hinv)


/-- C10: whenever `move_block` returns an error, the board is unchanged.
The two pre-validated fills cannot fail: the first fill's rectangle is
checked by `try_fill` itself before writing, and the second fill's
rectangle is exactly the destination footprint already validated by
`is_valid_move`, whose readability is preserved by the first fill. -/
theorem C10_move_block_is_atomic_on_error (b : Board) (id : Int) (d : Dir)
    (e : MoveErr) (b1 : Board) (h : move_block b id d = .fail e b1) : b1 = b := by
  unfold move_block at h
  rcases hv : is_valid_move b id d with _ | e0
  · rw [hv] at h
    dsimp only at h
    rcases hg : b.state.blocks.get? (usize_cast (id - 1)) with _ | block
    · rw [hg] at h
      exact ((MoveOutcome.fail.inj h).2).symm
    · rw [hg] at h
      dsimp only at h
      by_cases hid : id = block.id
      · rw [if_pos hid] at h
        rcases hf1 : b.grid.try_fill block.pos block.size 0 with _ | grid1
        · rw [hf1] at h
          exact ((MoveOutcome.fail.inj h).2).symm
        · rw [hf1] at h
          dsimp only at h
          rcases hf2 : grid1.try_fill (block.pos.add d.to_vec2) block.size block.id
            with _ | grid2
          · exfalso
            obtain ⟨blk2, hg2, hid2, hscan⟩ := is_valid_move_ok_elim hv
            rw [hg] at hg2
            obtain rfl : block = blk2 := Option.some_inj.mp hg2
            have hsome : (grid1.try_fill (block.pos.add d.to_vec2) block.size block.id).isSome := by
              rw [Matrix2D.try_fill_isSome_iff]
              intro p hp
              rw [Matrix2D.get_isSome_try_fill hf1 p]
              rw [Matrix2D.mem_rect_cells] at hp
              have hc : Matrix2D.in_rect block.pos block.size
                  ⟨p.x - (d.to_vec2).x, p.y - (d.to_vec2).y⟩ := by
                unfold Matrix2D.in_rect at hp ⊢
                unfold Vec2.add at hp
                dsimp only at hp ⊢
                omega
              obtain ⟨nid, hget, _⟩ :=
                valid_scan_ok_forall hscan _ (mem_block_cells.mpr hc)
              have hpeq : (⟨p.x - (d.to_vec2).x, p.y - (d.to_vec2).y⟩ : Vec2).add d.to_vec2 = p := by
                unfold Vec2.add
                cases p
                simp only [Vec2.mk.injEq]
                constructor <;> dsimp only <;> omega
              rw [hpeq] at hget
              rw [hget]
              rfl
            rw [hf2] at hsome
            exact absurd hsome (by simp)
          · rw [hf2] at h
            exact absurd h (by simp)
      · rw [if_neg hid] at h
        exact absurd h (by simp)
  · rw [hv] at h
    exact ((MoveOutcome.fail.inj h).2).symm
  · rw [hv] at h
    exact absurd h (by simp)

/-- Witness: the rejected out-of-range move `(2, Right)` on the unit-test
3×3 board leaves the board unchanged. -/
theorem C10_move_block_is_atomic_on_error_witness :
    board_of ⟨[1,1,2, 0,3,0, 0,4,4], ⟨3,3⟩⟩ = board_of ⟨[1,1,2, 0,3,0, 0,4,4], ⟨3,3⟩⟩ :=
  C10_move_block_is_atomic_on_error (board_of ⟨[1,1,2, 0,3,0, 0,4,4], ⟨3,3⟩⟩) 2 .right
    .outOfRange (board_of ⟨[1,1,2, 0,3,0, 0,4,4], ⟨3,3⟩⟩) (by decide)

/-- No move is ever accepted on `c6board` (fully packed board, no holes). -/
theorem c6board_no_move (id : Int) (d : Dir) (b' : Board) :
    move_block c6board id d ≠ .ok b' := by
  intro hmove
  obtain ⟨blk, hg, hid, hscan⟩ := is_valid_move_ok_elim (move_block_ok_valid hmove)
  have hlen : usize_cast (id - 1) < c6board.state.blocks.length := (List.get?_eq_some.mp hg).1
  have h2 : c6board.state.blocks.length = 2 := by decide
  rw [h2] at hlen
  set n := usize_cast (id - 1) with hn
  interval_cases n
  · have h0 : c6board.state.blocks.get? 0 = some ⟨1, ⟨1,0⟩, ⟨1,1⟩⟩ := by decide
    rw [h0] at hg
    obtain rfl : blk = ⟨1, ⟨1,0⟩, ⟨1,1⟩⟩ := (Option.some_inj.mp hg).symm
    obtain rfl : id = 1 := hid
    cases d <;> exact absurd hscan (by decide)
  · have h1 : c6board.state.blocks.get? 1 = some ⟨2, ⟨0,0⟩, ⟨1,1⟩⟩ := by decide
    rw [h1] at hg
    obtain rfl : blk = ⟨2, ⟨0,0⟩, ⟨1,1⟩⟩ := (Option.some_inj.mp hg).symm
    obtain rfl : id = 2 := hid
    cases d <;> exact absurd hscan (by decide)

/-- Replacing one element of the left list changes a zipped map-sum by the
difference of the affected term (or not at all when the index is beyond
either list). -/
theorem sum_map_zip_set (f : Block × Block → Int) :
    ∀ (l m : List Block) (i : Nat) (a : Block),
      (((l.set i a).zip m).map f).sum =
        ((l.zip m).map f).sum +
          (match l.get? i, m.get? i with
           | some la, some ma => f (a, ma) - f (la, ma)
           | _, _ => 0)
  | [], m, i, a => by simp
  | x :: xs, [], i, a => by simp
  | x :: xs, y :: ys, 0, a => by
    simp only [List.set_cons_zero, List.zip_cons_cons, List.map_cons, List.sum_cons,
      List.get?_cons_zero]
    ring
  | x :: xs, y :: ys, n + 1, a => by
    simp only [List.set_cons_succ, List.zip_cons_cons, List.map_cons, List.sum_cons,
      List.get?_cons_succ]
    rw [sum_map_zip_set f xs ys n a]
    ring

/-- Moving an anchor by one unit cell changes its L1 distance to a fixed
target by at most 1. -/
theorem abs_pair_step (px py tx ty vx vy : Int)
    (hv : (vx = 0 ∧ (vy = 1 ∨ vy = -1)) ∨ (vy = 0 ∧ (vx = 1 ∨ vx = -1))) :
    |(|px + vx - tx| + |py + vy - ty|) - (|px - tx| + |py - ty|)| ≤ 1 := by
  rcases abs_cases (px + vx - tx) with ⟨h1, _⟩ | ⟨h1, _⟩ <;>
  rcases abs_cases (py + vy - ty) with ⟨h2, _⟩ | ⟨h2, _⟩ <;>
  rcases abs_cases (px - tx) with ⟨h3, _⟩ | ⟨h3, _⟩ <;>
  rcases abs_cases (py - ty) with ⟨h4, _⟩ | ⟨h4, _⟩ <;>
  rcases abs_cases ((|px + vx - tx| + |py + vy - ty|) - (|px - tx| + |py - ty|))
    with ⟨h5, _⟩ | ⟨h5, _⟩ <;>
  omega

/-- A single accepted move changes the heuristic by at most 1: only the moved
block's summand changes, and its anchor moves one unit cell. -/
theorem heuristic_abs_diff {b : Board} {id : Int} {d : Dir} {b' : Board}
    (h : move_block b id d = .ok b') : |b'.heuristic - b.heuristic| ≤ 1 := by
  obtain ⟨block, grid1, grid2, hg, hid, hscan, hf1, hf2, rfl⟩ := move_block_ok_elim h
  unfold Board.heuristic
  dsimp only
  rw [sum_map_zip_set]
  rw [hg]
  rcases hm : b.final_state.blocks.get? (usize_cast (id - 1)) with _ | t
  · simp
  · dsimp only
    have harith : ∀ S D : Int, |S + D - S| = |D| := by
      intro S D
      have : S + D - S = D := by ring
      rw [this]
    rw [harith]
    cases d <;> unfold Dir.to_vec2 <;> unfold Vec2.add <;> dsimp only
    · exact abs_pair_step block.pos.x block.pos.y t.pos.x t.pos.y 0 (-1) (by omega)
    · exact abs_pair_step block.pos.x block.pos.y t.pos.x t.pos.y 0 1 (by omega)
    · exact abs_pair_step block.pos.x block.pos.y t.pos.x t.pos.y (-1) 0 (by omega)
    · exact abs_pair_step block.pos.x block.pos.y t.pos.x t.pos.y 1 0 (by omega)

/-- At a goal state the heuristic is zero (each block sits on its target). -/
theorem heuristic_eq_zero_of_goal {b : Board} (h : b.is_goal = true) :
    b.heuristic = 0 := by
  unfold Board.is_goal at h
  have hstate : b.state = b.final_state := of_decide_eq_true h
  unfold Board.heuristic
  rw [hstate]
  generalize b.final_state.blocks = l
  induction l with
  | nil => simp
  | cons x xs ih => simpa using ih

/-- C7: the heuristic is admissible.  First conjunct: along every accepted
move sequence that ends in a goal state, the starting heuristic is at most
the number of moves — hence at most the true minimum remaining move count.
Second conjunct: each single accepted move changes the heuristic by at
most 1. -/
theorem C7_heuristic_admissible_and_unit_step :
    (∀ (b : Board) (ms : List Move) (b' : Board),
        apply_moves b ms = some b' → b'.is_goal = true →
        b.heuristic ≤ (ms.length : Int)) ∧
    (∀ (b : Board) (id : Int) (d : Dir) (b' : Board),
        move_block b id d = .ok b' → |b'.heuristic - b.heuristic| ≤ 1) := by
  constructor
  · intro b ms
    induction ms generalizing b with
    | nil =>
      intro b' happ hgoal
      obtain rfl : b = b' := by simpa [apply_moves] using happ
      rw [heuristic_eq_zero_of_goal hgoal]
      simp
    | cons m rest ih =>
      intro b' happ hgoal
      obtain ⟨id, d⟩ := m
      unfold apply_moves at happ
      cases hmv : move_block b id d with
      | ok b1 =>
        rw [hmv] at happ
        have hstep := abs_le.mp (heuristic_abs_diff hmv)
        have htail := ih b1 b' happ hgoal
        simp only [List.length_cons]
        push_cast
        omega
      | fail e b1 => rw [hmv] at happ; exact absurd happ (by simp)
      | aborted => rw [hmv] at happ; exact absurd happ (by simp)
  · intro b id d b' h
    exact heuristic_abs_diff h

/-- Witness for C7: on `c1board` the admissibility bound gives
`heuristic ≤ 4` along the concrete solution, and the move `(1, Down)`
changes the heuristic by at most 1. -/
theorem C7_heuristic_admissible_and_unit_step_witness :
    c1board.heuristic ≤ (c1sol.length : Int) ∧
    |(board_of ⟨[2,0, 0,1], ⟨2,2⟩⟩).heuristic - c1board.heuristic| ≤ 1 :=
  ⟨C7_heuristic_admissible_and_unit_step.1 c1board c1sol
      (board_of ⟨[1,2, 0,0], ⟨2,2⟩⟩) (by decide) (by decide),
   C7_heuristic_admissible_and_unit_step.2 c1board 1 .down
      (board_of ⟨[2,0, 0,1], ⟨2,2⟩⟩) (by decide)⟩

/-- C9: every successful `move_block` preserves the occupancy invariant:
afterwards every cell of each block's rectangle reads its id, distinct
blocks' rectangles are disjoint, the hole set is exactly the set of 0-cells,
and the number of holes is unchanged. -/
theorem C9_move_block_preserves_occupancy_invariant (b : Board) (id : Int) (d : Dir)
    (b' : Board) (hinv : b.Inv) (h : move_block b id d = .ok b') :
    (∀ blk ∈ b'.state.blocks, ∀ p ∈ block_cells blk, b'.grid.get p = some blk.id) ∧
    (∀ blk ∈ b'.state.blocks, ∀ blk' ∈ b'.state.blocks, blk ≠ blk' →
      ∀ p : Vec2, Matrix2D.in_rect blk.pos blk.size p →
        ¬ Matrix2D.in_rect blk'.pos blk'.size p) ∧
    (∀ p : Vec2, p ∈ b'.state.holes ↔ b'.grid.get p = some 0) ∧
    b'.state.holes.length = b.state.holes.length := by
  obtain ⟨block, grid1, grid2, hg, hid, hscan, hf1, hf2, rfl⟩ := move_block_ok_elim h
  dsimp only
  have hwf := hinv.grid_wf
  have hwf1 := Matrix2D.try_fill_wf hwf hf1
  have hblkmem : block ∈ b.state.blocks := List.get?_mem hg
  have hig : block.id = (usize_cast (id - 1) : Int) + 1 := hinv.block_id hg
  have hilen : usize_cast (id - 1) < b.state.blocks.length := (List.get?_eq_some.mp hg).1
  have hg1 : ∀ p, grid1.get p =
      if Matrix2D.in_rect block.pos block.size p then some 0 else b.grid.get p :=
    Matrix2D.get_try_fill_val hwf hf1
  have hG : ∀ p, grid2.get p =
      if Matrix2D.in_rect (block.pos.add d.to_vec2) block.size p then some block.id
      else if Matrix2D.in_rect block.pos block.size p then some 0
      else b.grid.get p := by
    intro p
    rw [Matrix2D.get_try_fill_val hwf1 hf2 p]
    split
    · rfl
    · exact hg1 p
  have hzero : ∀ p, Matrix2D.in_rect (block.pos.add d.to_vec2) block.size p →
      ¬ Matrix2D.in_rect block.pos block.size p → b.grid.get p = some 0 :=
    fun p hp hnp => dest_cell_zero hinv hblkmem hid hscan hp hnp
  have hcov : ∀ p, Matrix2D.in_rect block.pos block.size p →
      b.grid.get p = some block.id :=
    fun p hp => hinv.cover_rect hblkmem hp
  have hids' : ∀ (j : Nat) (blk : Block),
      (b.state.blocks.set (usize_cast (id - 1))
        ⟨block.id, block.pos.add d.to_vec2, block.size⟩).get? j = some blk →
      blk.id = (j : Int) + 1 := by
    intro j blk hj
    by_cases hji : j = usize_cast (id - 1)
    · subst hji
      rw [get?_set_self hilen] at hj
      obtain rfl : blk = ⟨block.id, block.pos.add d.to_vec2, block.size⟩ :=
        (Option.some_inj.mp hj).symm
      exact hig
    · rw [List.get?_set_ne _ _ (by omega)] at hj
      exact hinv.block_id hj
  have hcov2 : ∀ blk ∈ b.state.blocks.set (usize_cast (id - 1))
      ⟨block.id, block.pos.add d.to_vec2, block.size⟩,
      ∀ p : Vec2, Matrix2D.in_rect blk.pos blk.size p → grid2.get p = some blk.id := by
    intro blk hm p hp
    rcases mem_set_elim hm with rfl | ⟨j, hji, hjget⟩
    · rw [hG p, if_pos hp]
    · have hjid : blk.id = (j : Int) + 1 := hinv.block_id hjget
      have hbm : blk ∈ b.state.blocks := List.get?_mem hjget
      have hbp : b.grid.get p = some blk.id := hinv.cover_rect hbm hp
      have hnotblock : ¬ Matrix2D.in_rect block.pos block.size p := by
        intro hcontra
        have hcv := hcov p hcontra
        rw [hbp] at hcv
        have : blk.id = block.id := Option.some_inj.mp hcv
        omega
      have hnotnb : ¬ Matrix2D.in_rect (block.pos.add d.to_vec2) block.size p := by
        intro hcontra
        have h0 := hzero p hcontra hnotblock
        rw [hbp] at h0
        have : blk.id = 0 := Option.some_inj.mp h0
        omega
      rw [hG p, if_neg hnotnb, if_neg hnotblock]
      exact hbp
  refine ⟨?_, ?_, ?_, ?_⟩
  · intro blk hm p hp
    exact hcov2 blk hm p (mem_block_cells.mp hp)
  · intro blk hm blk' hm' hne p hp hp'
    have e1 := hcov2 blk hm p hp
    have e2 := hcov2 blk' hm' p hp'
    rw [e1] at e2
    have hide : blk.id = blk'.id := Option.some_inj.mp e2
    obtain ⟨j, hj⟩ := List.mem_iff_get?.mp hm
    obtain ⟨j', hj'⟩ := List.mem_iff_get?.mp hm'
    have hj1 := hids' j blk hj
    have hj2 := hids' j' blk' hj'
    obtain rfl : j = j' := by omega
    rw [hj] at hj'
    exact hne (Option.some_inj.mp hj')
  · intro p
    have hnH := hinv.holes_nodup
    have hn1 := @nodup_foldl_set_insert _ vecLE _ _ (block_cells block) _ hnH
    rw [mem_foldl_erase _ hn1 p, mem_foldl_set_insert, mem_block_cells, mem_block_cells,
      hG p]
    by_cases hr2 : Matrix2D.in_rect
        (Block.pos ⟨block.id, block.pos.add d.to_vec2, block.size⟩)
        (Block.size ⟨block.id, block.pos.add d.to_vec2, block.size⟩) p
    · rw [if_pos hr2]
      constructor
      · rintro ⟨-, habs⟩
        exact absurd hr2 habs
      · intro habs
        have : block.id = 0 := Option.some_inj.mp habs
        omega
    · rw [if_neg hr2]
      by_cases hr1 : Matrix2D.in_rect block.pos block.size p
      · rw [if_pos hr1]
        simp only [eq_self_iff_true, iff_true]
        exact ⟨Or.inr hr1, hr2⟩
      · rw [if_neg hr1]
        rw [hinv.holes_iff p]
        constructor
        · rintro ⟨h0 | habs, -⟩
          · exact h0
          · exact absurd habs hr1
        · intro h0
          exact ⟨Or.inl h0, hr2⟩
  · have hnH := hinv.holes_nodup
    have hn1 := @nodup_foldl_set_insert _ vecLE _ _ (block_cells block) _ hnH
    have hn2 := nodup_foldl_erase
      (block_cells ⟨block.id, block.pos.add d.to_vec2, block.size⟩) hn1
    rw [← List.toFinset_card_of_nodup hn2, ← List.toFinset_card_of_nodup hnH]
    have hS2 : ((block_cells ⟨block.id, block.pos.add d.to_vec2, block.size⟩).foldl
          (fun h p => h.erase p)
          ((block_cells block).foldl (fun h p => set_insert vecLE p h)
            b.state.holes)).toFinset =
        ((block_cells block).foldl (fun h p => set_insert vecLE p h)
          b.state.holes).toFinset \
          (block_cells ⟨block.id, block.pos.add d.to_vec2, block.size⟩).toFinset := by
      ext x
      simp only [List.mem_toFinset, Finset.mem_sdiff]
      rw [mem_foldl_erase _ hn1 x]
    have hS1 : ((block_cells block).foldl (fun h p => set_insert vecLE p h)
          b.state.holes).toFinset =
        b.state.holes.toFinset ∪ (block_cells block).toFinset := by
      ext x
      simp only [List.mem_toFinset, Finset.mem_union]
      rw [mem_foldl_set_insert]
    have hdisj : Disjoint b.state.holes.toFinset (block_cells block).toFinset := by
      rw [Finset.disjoint_left]
      intro x hx hx'
      have h0 : b.grid.get x = some 0 :=
        (hinv.holes_iff x).mp (List.mem_toFinset.mp hx)
      have hc := hcov x (mem_block_cells.mp (List.mem_toFinset.mp hx'))
      rw [h0] at hc
      have : (0 : Int) = block.id := Option.some_inj.mp hc
      omega
    have hsub : (block_cells ⟨block.id, block.pos.add d.to_vec2, block.size⟩).toFinset ⊆
        ((block_cells block).foldl (fun h p => set_insert vecLE p h)
          b.state.holes).toFinset := by
      intro x hx
      rw [hS1]
      rw [List.mem_toFinset] at hx
      have hr := mem_block_cells.mp hx
      by_cases hb : Matrix2D.in_rect block.pos block.size x
      · exact Finset.mem_union_right _ (List.mem_toFinset.mpr (mem_block_cells.mpr hb))
      · refine Finset.mem_union_left _ (List.mem_toFinset.mpr ?_)
        exact (hinv.holes_iff x).mpr (hzero x hr hb)
    have himg : (block_cells ⟨block.id, block.pos.add d.to_vec2, block.size⟩).toFinset =
        (block_cells block).toFinset.image (fun c => c.add d.to_vec2) := by
      ext x
      simp only [List.mem_toFinset, Finset.mem_image]
      rw [block_cells_shift]
      constructor
      · rintro ⟨c, hc, rfl⟩
        exact ⟨c, hc, rfl⟩
      · rintro ⟨c, hc, rfl⟩
        exact ⟨c, hc, rfl⟩
    have hcards : (block_cells ⟨block.id, block.pos.add d.to_vec2, block.size⟩).toFinset.card =
        (block_cells block).toFinset.card := by
      rw [himg]
      exact Finset.card_image_of_injective _ (vec2_add_right_injective _)
    rw [hS2, Finset.card_sdiff hsub, hS1, Finset.card_union_of_disjoint hdisj]
    omega

/-- Witness for C9: the accepted move `(5, Left)` on the unit-test 5×4 board. -/
theorem C9_move_block_preserves_occupancy_invariant_witness :
    ((match move_block tboard 5 .left with
      | .ok b' => some b'.state.holes.length
      | _ => none) = some tboard.state.holes.length) := by
  have h : move_block tboard 5 .left =
      .ok (board_of ⟨[1,2,2,3, 1,2,2,3, 4,5,5,0, 4,0,7,6, 9,10,8,6], ⟨4,5⟩⟩) := by decide
  rw [h]
  have := (C9_move_block_preserves_occupancy_invariant tboard 5 .left
    (board_of ⟨[1,2,2,3, 1,2,2,3, 4,5,5,0, 4,0,7,6, 9,10,8,6], ⟨4,5⟩⟩)
    (by constructor <;> decide) h).2.2.2
  dsimp only
  rw [this]

/-- Converse direction: if every destination cell reads 0 or the moving
block's id, the validation scan passes. -/
theorem valid_scan_ok_of_forall {g : Matrix2D Int} {id : Int} {v : Vec2} :
    ∀ {l : List Vec2},
      (∀ c ∈ l, ∃ nid, g.get (c.add v) = some nid ∧ (nid = 0 ∨ nid = id)) →
      valid_scan g id v l = .ok
  | [], _ => rfl
  | c0 :: rest, h => by
    obtain ⟨nid, hget, hor⟩ := h c0 (List.mem_cons_self c0 rest)
    unfold valid_scan
    rw [hget]
    dsimp only
    rw [if_neg (by tauto)]
    exact valid_scan_ok_of_forall (fun c hc => h c (List.mem_cons_of_mem c0 hc))

/-- Moving one cell in a direction and then in its inverse is the identity. -/
theorem add_to_vec2_inverse (p : Vec2) (d : Dir) :
    (p.add d.to_vec2).add d.inverse.to_vec2 = p := by
  cases p
  cases d <;>
    (unfold Dir.inverse Dir.to_vec2 Vec2.add
     simp only [Vec2.mk.injEq]
     constructor <;> dsimp only <;> omega)

/-- C3: an accepted move followed by the move with the inverse direction is
accepted and restores the entire board — grid, hole set, block positions,
and the recomputed legal-move cache. -/
theorem C3_move_then_inverse_restores_board (b : Board) (id : Int) (d : Dir)
    (b' : Board) (hinv : b.Inv) (h : move_block b id d = .ok b') :
    move_block b' id d.inverse = .ok b := by
  obtain ⟨block, grid1, grid2, hg, hid, hscan, hf1, hf2, rfl⟩ := move_block_ok_elim h
  have hwf := hinv.grid_wf
  have hwf1 := Matrix2D.try_fill_wf hwf hf1
  have hwf2 := Matrix2D.try_fill_wf hwf1 hf2
  have hblkmem : block ∈ b.state.blocks := List.get?_mem hg
  have hig : block.id = (usize_cast (id - 1) : Int) + 1 := hinv.block_id hg
  have hilen : usize_cast (id - 1) < b.state.blocks.length := (List.get?_eq_some.mp hg).1
  have hg1 : ∀ p, grid1.get p =
      if Matrix2D.in_rect block.pos block.size p then some 0 else b.grid.get p :=
    Matrix2D.get_try_fill_val hwf hf1
  have hG : ∀ p, grid2.get p =
      if Matrix2D.in_rect (block.pos.add d.to_vec2) block.size p then some block.id
      else if Matrix2D.in_rect block.pos block.size p then some 0
      else b.grid.get p := by
    intro p
    rw [Matrix2D.get_try_fill_val hwf1 hf2 p]
    split
    · rfl
    · exact hg1 p
  have hzero : ∀ p, Matrix2D.in_rect (block.pos.add d.to_vec2) block.size p →
      ¬ Matrix2D.in_rect block.pos block.size p → b.grid.get p = some 0 :=
    fun p hp hnp => dest_cell_zero hinv hblkmem hid hscan hp hnp
  have hcov : ∀ p, Matrix2D.in_rect block.pos block.size p →
      b.grid.get p = some block.id :=
    fun p hp => hinv.cover_rect hblkmem hp
  -- Step 1: the inverse move's validation scan passes on the moved board.
  have hscan' : valid_scan grid2 id d.inverse.to_vec2
      (block_cells ⟨block.id, block.pos.add d.to_vec2, block.size⟩) = .ok := by
    refine valid_scan_ok_of_forall ?_
    intro c hc
    obtain ⟨e, he, rfl⟩ := block_cells_shift.mp hc
    rw [add_to_vec2_inverse]
    have hre : Matrix2D.in_rect block.pos block.size e := mem_block_cells.mp he
    by_cases hrn : Matrix2D.in_rect (block.pos.add d.to_vec2) block.size e
    · exact ⟨block.id, by rw [hG e, if_pos hrn], Or.inr hid.symm⟩
    · exact ⟨0, by rw [hG e, if_neg hrn, if_pos hre], Or.inl rfl⟩
  -- Step 2: the inverse move passes full validation.
  have hvalid' : is_valid_move
      { grid := grid2,
        state := ⟨(block_cells ⟨block.id, block.pos.add d.to_vec2, block.size⟩).foldl
                    (fun h p => h.erase p)
                    ((block_cells block).foldl (fun h p => set_insert vecLE p h)
                      b.state.holes),
                  b.state.blocks.set (usize_cast (id - 1))
                    ⟨block.id, block.pos.add d.to_vec2, block.size⟩⟩,
        final_state := b.final_state,
        _possible_moves := generate_possible_moves
          ((block_cells ⟨block.id, block.pos.add d.to_vec2, block.size⟩).foldl
             (fun h p => h.erase p)
             ((block_cells block).foldl (fun h p => set_insert vecLE p h)
               b.state.holes))
          grid2 } id d.inverse = .ok := by
    unfold is_valid_move
    dsimp only
    rw [get?_set_self hilen]
    dsimp only
    rw [if_pos hid]
    exact hscan'
  -- Step 3: the two fills of the inverse move succeed.
  have hfx3 : (grid2.try_fill (block.pos.add d.to_vec2) block.size 0).isSome := by
    rw [Matrix2D.try_fill_isSome_iff]
    intro p hp
    rw [hG p, if_pos (Matrix2D.mem_rect_cells.mp hp)]
    rfl
  obtain ⟨grid3, hf3⟩ := Option.isSome_iff_exists.mp hfx3
  have hwf3 := Matrix2D.try_fill_wf hwf2 hf3
  have hg3 : ∀ p, grid3.get p =
      if Matrix2D.in_rect (block.pos.add d.to_vec2) block.size p then some 0
      else grid2.get p :=
    Matrix2D.get_try_fill_val hwf2 hf3
  have hfx4 : (grid3.try_fill block.pos block.size block.id).isSome := by
    rw [Matrix2D.try_fill_isSome_iff]
    intro p hp
    have hrp : Matrix2D.in_rect block.pos block.size p := Matrix2D.mem_rect_cells.mp hp
    rw [hg3 p]
    by_cases hrn : Matrix2D.in_rect (block.pos.add d.to_vec2) block.size p
    · rw [if_pos hrn]; rfl
    · rw [if_neg hrn, hG p, if_neg hrn, if_pos hrp]; rfl
  obtain ⟨grid4, hf4⟩ := Option.isSome_iff_exists.mp hfx4
  have hwf4 := Matrix2D.try_fill_wf hwf3 hf4
  have hg4 : ∀ p, grid4.get p =
      if Matrix2D.in_rect block.pos block.size p then some block.id
      else grid3.get p :=
    Matrix2D.get_try_fill_val hwf3 hf4
  -- The restored grid is the original grid.
  have hsz4 : grid4.size = b.grid.size := by
    rw [Matrix2D.try_fill_size hf4, Matrix2D.try_fill_size hf3,
      Matrix2D.try_fill_size hf2, Matrix2D.try_fill_size hf1]
  have hgrid : grid4 = b.grid := by
    refine Matrix2D.ext_of hsz4 hwf4 hwf ?_
    intro p
    rw [hg4 p]
    by_cases hrp : Matrix2D.in_rect block.pos block.size p
    · rw [if_pos hrp, hcov p hrp]
    · rw [if_neg hrp, hg3 p]
      by_cases hrn : Matrix2D.in_rect (block.pos.add d.to_vec2) block.size p
      · rw [if_pos hrn, hzero p hrn hrp]
      · rw [if_neg hrn, hG p, if_neg hrn, if_neg hrp]
  -- The restored block list is the original one.
  have hblocks : (b.state.blocks.set (usize_cast (id - 1))
        ⟨block.id, block.pos.add d.to_vec2, block.size⟩).set (usize_cast (id - 1))
        ⟨block.id, block.pos, block.size⟩ = b.state.blocks := by
    rw [List.set_set]
    exact list_set_own _ _ _ hg
  -- The restored hole list is the original one.
  have hs0 := hinv.holes_sorted
  have hn0 := hinv.holes_nodup
  have hn1 := @nodup_foldl_set_insert _ vecLE _ _ (block_cells block) _ hn0
  have hn2 := nodup_foldl_erase
    (block_cells ⟨block.id, block.pos.add d.to_vec2, block.size⟩) hn1
  have hn3 := @nodup_foldl_set_insert _ vecLE _ _
    (block_cells ⟨block.id, block.pos.add d.to_vec2, block.size⟩) _ hn2
  have hn4 := nodup_foldl_erase (block_cells ⟨block.id, block.pos, block.size⟩) hn3
  have hs1 := sorted_foldl_set_insert (block_cells block) hs0
  have hs2 := sorted_foldl_erase
    (block_cells ⟨block.id, block.pos.add d.to_vec2, block.size⟩) hs1
  have hs3 := sorted_foldl_set_insert
    (block_cells ⟨block.id, block.pos.add d.to_vec2, block.size⟩) hs2
  have hs4 := sorted_foldl_erase
    (block_cells ⟨block.id, block.pos, block.size⟩) hs3
  have hholes : (block_cells ⟨block.id, block.pos, block.size⟩).foldl
        (fun h p => h.erase p)
        ((block_cells ⟨block.id, block.pos.add d.to_vec2, block.size⟩).foldl
          (fun h p => set_insert vecLE p h)
          ((block_cells ⟨block.id, block.pos.add d.to_vec2, block.size⟩).foldl
            (fun h p => h.erase p)
            ((block_cells block).foldl (fun h p => set_insert vecLE p h)
              b.state.holes))) = b.state.holes := by
    refine sorted_nodup_ext hs4 hn4 hs0 hn0 ?_
    intro x
    rw [mem_foldl_erase _ hn3 x, mem_foldl_set_insert, mem_foldl_erase _ hn1 x,
      mem_foldl_set_insert]
    have hBmem : x ∈ block_cells ⟨block.id, block.pos, block.size⟩ ↔
        Matrix2D.in_rect block.pos block.size x := mem_block_cells
    have hNmem : x ∈ block_cells ⟨block.id, block.pos.add d.to_vec2, block.size⟩ ↔
        Matrix2D.in_rect (block.pos.add d.to_vec2) block.size x := mem_block_cells
    rw [hBmem, hNmem]
    have f1 : x ∈ b.state.holes → ¬ Matrix2D.in_rect block.pos block.size x := by
      intro hx hb
      have h0 := (hinv.holes_iff x).mp hx
      have hc := hcov x hb
      rw [h0] at hc
      have : (0 : Int) = block.id := Option.some_inj.mp hc
      omega
    have f2 : Matrix2D.in_rect (block.pos.add d.to_vec2) block.size x →
        ¬ Matrix2D.in_rect block.pos block.size x → x ∈ b.state.holes :=
      fun hn hb => (hinv.holes_iff x).mpr (hzero x hn hb)
    constructor
    · rintro ⟨hl | hn, hb⟩
      · rcases hl with ⟨hl', -⟩
        rcases hl' with hx | hbx
        · exact hx
        · exact absurd hbx hb
      · exact f2 hn hb
    · intro hx
      refine ⟨?_, f1 hx⟩
      by_cases hn : Matrix2D.in_rect (block.pos.add d.to_vec2) block.size x
      · exact Or.inr hn
      · exact Or.inl ⟨Or.inl hx, hn⟩
  -- Assemble the restored board.
  unfold move_block
  rw [hvalid']
  dsimp only
  rw [get?_set_self hilen]
  dsimp only
  rw [if_pos hid]
  rw [add_to_vec2_inverse block.pos d]
  rw [hf3]
  dsimp only
  rw [hf4]
  dsimp only
  rw [hgrid, hblocks, hholes, hinv.cache.symm]

/-- Witness for C3: moving block 5 left then right on the unit-test board
restores it (the repository's own `test_move_is_recoverable`). -/
theorem C3_move_then_inverse_restores_board_witness :
    move_block (board_of ⟨[1,2,2,3, 1,2,2,3, 4,5,5,0, 4,0,7,6, 9,10,8,6], ⟨4,5⟩⟩)
      5 Dir.left.inverse = .ok tboard :=
  C3_move_then_inverse_restores_board tboard 5 .left
    (board_of ⟨[1,2,2,3, 1,2,2,3, 4,5,5,0, 4,0,7,6, 9,10,8,6], ⟨4,5⟩⟩)
    (by constructor <;> decide) (by decide)

/-- A move is in the generated set iff some hole contributes it. -/
theorem mem_gpm_fold {g : Matrix2D Int} :
    ∀ {holes : List Vec2} {acc : List Move} {m : Move},
      m ∈ holes.foldl
        (fun acc hole => (hole_moves g hole).foldl (fun acc' m => set_insert moveLE m acc') acc)
        acc ↔ m ∈ acc ∨ ∃ hole ∈ holes, m ∈ hole_moves g hole
  | [], acc, m => by simp
  | h0 :: rest, acc, m => by
    rw [List.foldl_cons, mem_gpm_fold, mem_foldl_set_insert]
    simp only [List.mem_cons]
    constructor
    · rintro ((hm | hm) | ⟨hole, hh, hm⟩)
      · exact Or.inl hm
      · exact Or.inr ⟨h0, Or.inl rfl, hm⟩
      · exact Or.inr ⟨hole, Or.inr hh, hm⟩
    · rintro (hm | ⟨hole, rfl | hh, hm⟩)
      · exact Or.inl (Or.inl hm)
      · exact Or.inl (Or.inr hm)
      · exact Or.inr ⟨hole, hh, hm⟩

theorem mem_generate_possible_moves {holes : List Vec2} {g : Matrix2D Int} {m : Move} :
    m ∈ generate_possible_moves holes g ↔ ∃ hole ∈ holes, m ∈ hole_moves g hole := by
  unfold generate_possible_moves
  rw [mem_gpm_fold]
  simp

/-- A hole contributes exactly the moves `(id, d.inverse())` for the occupied
cardinal neighbours `hole + d`. -/
theorem mem_hole_moves {g : Matrix2D Int} {hole : Vec2} {m : Move} :
    m ∈ hole_moves g hole ↔
      ∃ d' : Dir, g.get (hole.add d'.to_vec2) = some m.1 ∧ m.1 ≠ 0 ∧ m.2 = d'.inverse := by
  unfold hole_moves
  rw [List.mem_filterMap]
  constructor
  · rintro ⟨d', _, hf⟩
    cases hg : g.get (hole.add d'.to_vec2) with
    | none => rw [hg] at hf; exact absurd hf (by simp)
    | some nid =>
      rw [hg] at hf
      dsimp only at hf
      split at hf
      · next hne =>
        obtain rfl := Option.some_inj.mp hf
        exact ⟨d', by rw [hg], hne, rfl⟩
      · exact absurd hf (by simp)
  · rintro ⟨d', hget, hne, hd⟩
    refine ⟨d', by cases d' <;> simp [dirList], ?_⟩
    rw [hget]
    dsimp only
    rw [if_pos hne]
    cases m with
    | mk a dd =>
      dsimp only at hd
      rw [hd]

/-- If every destination cell is readable, the validation scan cannot report
an out-of-range error. -/
theorem valid_scan_ne_outOfRange {g : Matrix2D Int} {id : Int} {v : Vec2} :
    ∀ {l : List Vec2}, (∀ c ∈ l, (g.get (c.add v)).isSome) →
      valid_scan g id v l ≠ .fail .outOfRange
  | [], _ => by simp [valid_scan]
  | c :: rest, h => by
    obtain ⟨nid, hget⟩ := Option.isSome_iff_exists.mp (h c (List.mem_cons_self c rest))
    unfold valid_scan
    rw [hget]
    dsimp only
    split
    · simp
    · exact valid_scan_ne_outOfRange (fun c' hc' => h c' (List.mem_cons_of_mem c hc'))

/-- A block is found at the slot its own id indexes. -/
theorem Board.Inv.get_of_mem_id {b : Board} (hinv : b.Inv) {blk : Block}
    (hm : blk ∈ b.state.blocks) :
    b.state.blocks.get? (usize_cast (blk.id - 1)) = some blk := by
  obtain ⟨i, hi⟩ := List.mem_iff_get?.mp hm
  have hid := hinv.block_id hi
  have hlen : i < b.state.blocks.length := (List.get?_eq_some.mp hi).1
  have hbound : i < 2 ^ 64 := Nat.lt_trans hlen hinv.blocks_bound
  have hcast : usize_cast (blk.id - 1) = i := by
    rw [hid]
    unfold usize_cast
    omega
  rw [hcast]
  exact hi

/-- The geometric core of C8: a candidate move pushes the block toward the
hole that generated it, so the whole destination footprint stays inside the
grid. -/
theorem dest_inside {b : Board} (hinv : b.Inv) {blk : Block} (hm : blk ∈ b.state.blocks)
    {hole : Vec2} (hh : hole ∈ b.state.holes) {d' : Dir}
    (hq : Matrix2D.in_rect blk.pos blk.size (hole.add d'.to_vec2))
    {c : Vec2} (hc : Matrix2D.in_rect blk.pos blk.size c) :
    Vec2.inside b.grid.size (c.add d'.inverse.to_vec2) := by
  have hhin : Vec2.inside b.grid.size hole :=
    Matrix2D.get_isSome_inside (by rw [hinv.holes_zero hole hh]; rfl)
  have hcin : Vec2.inside b.grid.size c :=
    Matrix2D.get_isSome_inside (by rw [hinv.cover_rect hm hc]; rfl)
  have hnotr : ¬ Matrix2D.in_rect blk.pos blk.size hole := by
    intro hr
    have h1 := hinv.holes_zero hole hh
    have h2 := hinv.cover_rect hm hr
    rw [h1] at h2
    have h3 : (0 : Int) = blk.id := Option.some_inj.mp h2
    obtain ⟨i, hi⟩ := List.mem_iff_get?.mp hm
    have h4 := hinv.block_id hi
    omega
  cases d'
  all_goals
    simp only [Dir.inverse, Dir.to_vec2, Vec2.add, Vec2.inside, Matrix2D.in_rect] at hq hhin hcin hnotr hc ⊢
  all_goals omega

/-- C8: on a board satisfying the occupancy invariant, no cached candidate
move is rejected with the out-of-range error: each candidate's destination
footprint lies inside the grid, so `move_block` either succeeds or reports a
cell occupied by another block. -/
theorem C8_possible_moves_never_out_of_range (b : Board) (hinv : b.Inv)
    (id : Int) (d : Dir) (hm : (id, d) ∈ b.possible_moves) :
    ∀ b', move_block b id d ≠ .fail .outOfRange b' := by
  have hmem : (id, d) ∈ generate_possible_moves b.state.holes b.grid := by
    rw [← hinv.cache]
    exact hm
  rw [mem_generate_possible_moves] at hmem
  obtain ⟨hole, hh, hhm⟩ := hmem
  rw [mem_hole_moves] at hhm
  obtain ⟨d', hget, hne, hd⟩ := hhm
  dsimp only at hget hne hd
  obtain ⟨blk, hblk, hbid, hq⟩ := hinv.owner_of_get hget hne
  have hgq : b.state.blocks.get? (usize_cast (id - 1)) = some blk := by
    have hx := hinv.get_of_mem_id hblk
    rw [hbid] at hx
    exact hx
  have hins : ∀ c ∈ block_cells blk, (b.grid.get (c.add d.to_vec2)).isSome := by
    intro c hc
    have hcr := mem_block_cells.mp hc
    have hin := dest_inside hinv hblk hh hq hcr
    rw [hd]
    exact Matrix2D.get_isSome_of_inside hinv.grid_wf hin
  have hscan : valid_scan b.grid id d.to_vec2 (block_cells blk) ≠ .fail .outOfRange :=
    valid_scan_ne_outOfRange hins
  intro b' hcontra
  unfold move_block at hcontra
  cases hv : is_valid_move b id d with
  | ok =>
    rw [hv] at hcontra
    dsimp only at hcontra
    rw [hgq] at hcontra
    dsimp only at hcontra
    rw [if_pos hbid.symm] at hcontra
    cases h1 : b.grid.try_fill blk.pos blk.size 0 with
    | none =>
      rw [h1] at hcontra
      dsimp only at hcontra
      simp at hcontra
    | some g1 =>
      rw [h1] at hcontra
      dsimp only at hcontra
      cases h2 : g1.try_fill (blk.pos.add d.to_vec2) blk.size blk.id with
      | none =>
        rw [h2] at hcontra
        dsimp only at hcontra
        simp at hcontra
      | some g2 =>
        rw [h2] at hcontra
        dsimp only at hcontra
        simp at hcontra
  | fail e =>
    rw [hv] at hcontra
    dsimp only at hcontra
    have he : e = .outOfRange := (MoveOutcome.fail.inj hcontra).1
    rw [he] at hv
    unfold is_valid_move at hv
    rw [hgq] at hv
    dsimp only at hv
    rw [if_pos hbid.symm] at hv
    exact hscan hv
  | aborted =>
    rw [hv] at hcontra
    exact MoveOutcome.noConfusion hcontra

/-- Witness for C8: on the unit-test board the cached move (5, Left) is not
rejected as out of range. -/
theorem C8_possible_moves_never_out_of_range_witness :
    (5, Dir.left) ∈ tboard.possible_moves ∧
      move_block tboard 5 Dir.left ≠ .fail .outOfRange tboard :=
  ⟨by decide,
   C8_possible_moves_never_out_of_range tboard (by constructor <;> decide) 5 .left
     (by decide) tboard⟩

/-- C1: the claim fails on the code.  `c1board` (`2 1 / 0 0`) is solvable —
the explicit 4-move list `c1sol` is accepted move by move and reaches a goal
state, and `iddfs` returns a 4-move solution — yet `idastar` terminates with
`None` ("unsolvable"): `_idastar` discards the fallback limits of its
recursive calls and raises `f_limit` with `max`, so the outer loop's limit
can never exceed `heuristic + 1` and any puzzle needing more moves than that
is misreported.  (The `Option`-layer `some` means the run terminated without
a panic; fuel 10 is more than the rounds used.) -/
theorem C1_idastar_incomplete_on_solvable_board :
    (apply_moves c1board c1sol).map Board.is_goal = some true ∧
    c1sol.length = 4 ∧
    iddfs 10 c1board = some (some [(1, .down), (1, .left), (2, .right), (1, .up)]) ∧
    idastar 10 c1board = some none := by
  refine ⟨by decide, by decide, by decide, by decide⟩

/-- C2: the claim fails on the code.  On the strip `0 0 0 0 0 0 1 0` with
`f_limit = 4`, the bounded search observes the candidate f-values 5 (moving
block 1 left, `f = g + heuristic = 0 + 5 > 4`) and 7 (moving it right), finds
no solution, and returns 7 — the maximum candidate f-value at the call — not
5, the smallest f-value strictly exceeding the limit seen in the tree. -/
theorem C2_idastar_fallback_is_max_not_min_exceeding :
    _idastar 3 c2board 0 4 [] = some (.error 7, []) ∧
    (match move_block c2board 1 .left with
     | .ok b => some ((0 : Int) + b.heuristic)
     | _ => none) = some 5 ∧
    (4 : Int) < 5 ∧ (5 : Int) ≠ 7 := by
  refine ⟨by decide, by decide, by decide, by decide⟩

/-- C4 counterexample: on `c4grid` (`1 3 2 4 / 5 5 2 0`) the goal layout
produced at construction places block 5 (2×1) at (0,1) although cell (1,1)
belongs to the already-placed vertical block 2 — `try_fill` only checks
bounds and overwrites — so two blocks' goal rectangles overlap at (1,1),
contradicting the claimed no-overlap property. -/
theorem C4_counterexample_goal_rectangles_overlap :
    (match try_from c4grid with
     | some (.ok b) => some (b.final_state.blocks.get? 1, b.final_state.blocks.get? 4)
     | _ => none) =
      some (some ⟨2, ⟨1,0⟩, ⟨1,2⟩⟩, some ⟨5, ⟨0,1⟩, ⟨2,1⟩⟩) ∧
    (⟨1,1⟩ : Vec2) ∈ Matrix2D.rect_cells ⟨1,0⟩ ⟨1,2⟩ ∧
    (⟨1,1⟩ : Vec2) ∈ Matrix2D.rect_cells ⟨0,1⟩ ⟨2,1⟩ := by
  refine ⟨by decide, by decide, by decide⟩

/-- C5: the claim is right but the code is wrong.  On `c5grid`
(`6 6 1 / 6 6 2 / 3 4 5`) the greedy scan cannot place the 2×2 block 6
anywhere (only last-row/last-column cells remain empty), yet construction
returns `Ok`: the unfittable check reads `result_blocks.get(next_block_id)`,
which is always `None` since `result_blocks` has exactly `next_block_id`
elements, so `UnfittableLayout` is unreachable.  The board is produced with
6 input blocks but a 5-block goal state. -/
theorem C5_unfittable_layout_not_reported :
    (match try_from c5grid with
     | some (.ok b) => some (b.state.blocks.length, b.final_state.blocks.length)
     | _ => none) = some (6, 5) := by decide

/-- C4 (amended): the goal scan is row-major and greedy in id order, but a
block is placed at a cell whenever its whole rectangle lies inside the grid
— `try_fill` checks bounds only and overwrites earlier blocks, so goal
rectangles may overlap (see the counterexample).  What does hold: every
placed goal block keeps the id and size of the corresponding input block
(placements follow id order exactly), and every placed rectangle lies
entirely inside the grid. -/
theorem C4_amended_goal_layout_properties (size : Vec2) (blocks : List Block)
    (st : BoardState) (h : generate_final_state size blocks = some (.ok st)) :
    (∀ blk ∈ st.blocks, ∀ p ∈ Matrix2D.rect_cells blk.pos blk.size, Vec2.inside size p) ∧
    (∀ i blk, st.blocks.get? i = some blk →
      ∃ bl, blocks.get? i = some bl ∧ blk.id = bl.id ∧ blk.size = bl.size) := by
  unfold generate_final_state at h
  rcases hscan : gfs_scan blocks (Matrix2D.cell_list size)
      (some ⟨Matrix2D.fill size 0, 0, [], []⟩) with _ | stf
  · rw [hscan] at h; exact absurd h (by simp)
  · rw [hscan] at h
    dsimp only at h
    have hinv : GfsInv size blocks stf := by
      refine gfs_scan_inv _ _ _ hscan ?_
      refine ⟨rfl, rfl, ?_, ?_⟩
      · intro blk hblk; exact absurd hblk (by simp)
      · intro i blk hblk; exact absurd hblk (by simp)
    by_cases hfit : (stf.result_blocks.get? stf.next).isSome
    · rw [if_pos hfit] at h; exact absurd h (by simp)
    · rw [if_neg hfit] at h
      obtain rfl : BoardState.new stf.holes stf.result_blocks = st := by
        have := Option.some_inj.mp h
        exact Except.ok.inj this
      exact ⟨hinv.2.2.1, hinv.2.2.2⟩

/-- Witness for the amended C4 theorem at `c4grid`'s block list. -/
theorem C4_amended_goal_layout_properties_witness :
    (∀ blk ∈ (BoardState.new [⟨2,1⟩, ⟨3,1⟩]
        [⟨1, ⟨0,0⟩, ⟨1,1⟩⟩, ⟨2, ⟨1,0⟩, ⟨1,2⟩⟩, ⟨3, ⟨2,0⟩, ⟨1,1⟩⟩,
         ⟨4, ⟨3,0⟩, ⟨1,1⟩⟩, ⟨5, ⟨0,1⟩, ⟨2,1⟩⟩]).blocks,
      ∀ p ∈ Matrix2D.rect_cells blk.pos blk.size, Vec2.inside ⟨4,2⟩ p) ∧
    (∀ i blk, (BoardState.new [⟨2,1⟩, ⟨3,1⟩]
        [⟨1, ⟨0,0⟩, ⟨1,1⟩⟩, ⟨2, ⟨1,0⟩, ⟨1,2⟩⟩, ⟨3, ⟨2,0⟩, ⟨1,1⟩⟩,
         ⟨4, ⟨3,0⟩, ⟨1,1⟩⟩, ⟨5, ⟨0,1⟩, ⟨2,1⟩⟩]).blocks.get? i = some blk →
      ∃ bl, ([⟨1, ⟨0,0⟩, ⟨1,1⟩⟩, ⟨2, ⟨2,0⟩, ⟨1,2⟩⟩, ⟨3, ⟨1,0⟩, ⟨1,1⟩⟩,
             ⟨4, ⟨3,0⟩, ⟨1,1⟩⟩, ⟨5, ⟨0,1⟩, ⟨2,1⟩⟩] : List Block).get? i = some bl ∧
        blk.id = bl.id ∧ blk.size = bl.size) :=
  C4_amended_goal_layout_properties ⟨4,2⟩
    [⟨1, ⟨0,0⟩, ⟨1,1⟩⟩, ⟨2, ⟨2,0⟩, ⟨1,2⟩⟩, ⟨3, ⟨1,0⟩, ⟨1,1⟩⟩,
     ⟨4, ⟨3,0⟩, ⟨1,1⟩⟩, ⟨5, ⟨0,1⟩, ⟨2,1⟩⟩]
    (BoardState.new [⟨2,1⟩, ⟨3,1⟩]
        [⟨1, ⟨0,0⟩, ⟨1,1⟩⟩, ⟨2, ⟨1,0⟩, ⟨1,2⟩⟩, ⟨3, ⟨2,0⟩, ⟨1,1⟩⟩,
         ⟨4, ⟨3,0⟩, ⟨1,1⟩⟩, ⟨5, ⟨0,1⟩, ⟨2,1⟩⟩])
    (by decide)

/-- C6 (amended): `iddfs` terminates with `None` when a round's bounded DFS
reports a positive remaining budget; in particular on any board that is not
at goal and has no candidate moves, the very first round exhausts the space
and `iddfs` returns `None`, for every positive round fuel. -/
theorem C6_amended_iddfs_none_when_exhausted (b : Board) (n : Nat)
    (hgoal : b.is_goal = false) (hmoves : b.possible_moves = []) :
    iddfs (n + 1) b = some none := by
  have hvis : vis_insert b.state [] = [b.state] := by
    unfold vis_insert
    rw [if_neg (by simp)]
  have hdfs : dfs 2 b 1 [] = some (.error 1, []) := by
    unfold dfs
    rw [hgoal]
    simp only [Bool.false_eq_true, if_false]
    rw [if_neg (by omega)]
    rw [if_neg (by simp)]
    rw [hmoves, hvis]
    unfold dfs_loop
    rw [List.erase_cons_head]
  unfold iddfs iddfs_rounds
  have h1 : ((1 : Int).toNat + 1) = 2 := by decide
  rw [h1, hdfs]
  dsimp only
  rw [if_pos (by omega)]

/-- Witness for the amended C6 theorem at the packed board `2 1`. -/
theorem C6_amended_iddfs_none_when_exhausted_witness :
    iddfs 1 c6board = some none :=
  C6_amended_iddfs_none_when_exhausted c6board 0 (by decide) (by decide)

/-- C6 counterexample: `c6board` (`2 1`, fully packed out of order) has no
reachable goal — no move is ever accepted — yet `iddfs` terminates after its
very first round and returns `None`: the bounded DFS reports a positive
remaining budget (it exhausted the reachable space below the depth floor)
and the outer loop returns `None` instead of looping forever. -/
theorem C6_counterexample_iddfs_terminates_with_none :
    unreachable_goal c6board ∧ iddfs 1 c6board = some none := by
  refine ⟨?_, by decide⟩
  · intro ms b' happ
    cases ms with
    | nil =>
      obtain rfl : c6board = b' := by simpa [apply_moves] using happ
      decide
    | cons m rest =>
      obtain ⟨id, d⟩ := m
      unfold apply_moves at happ
      cases hmv : move_block c6board id d with
      | ok b1 => exact absurd hmv (c6board_no_move id d b1)
      | fail e b1 => rw [hmv] at happ; exact absurd happ (by simp)
      | aborted => rw [hmv] at happ; exact absurd happ (by simp)

end SlidingPuzzle
